import Mathlib

/-!
# mget: scraping and filtering a metrics exposition document

A shallow embedding of `client.go` and `types.go` of the `mget` package, and the properties of
`Client.Do` and of the filter builders proved over it.

Conventions of the embedding.

* A Go `string` is a list of characters (`GoString`); the response body is taken to be
  well-formed UTF-8 text, so runes and characters coincide.
* A Go slice whose nil-ness the source tests (`client.nameFilter == nil`) is an
  `Option (List α)`, `none` being the nil slice.
* A Go `map[string]T` is an association list read by its first matching key.
* A run-time panic is the `Except.error` side of the result of `Do`; a returned `Result`
  (with or without `Err`) is the `Except.ok` side.
* The functions of the Go standard library that `Do` calls (`strings`, `bufio.Scanner`,
  `regexp` for the one pattern of the source, `strconv.ParseFloat`) are modelled from their
  documented behaviour.
-/

namespace Mget

/-! ## Strings -/

/-- Go `string`. -/
abbrev GoString := List Char

/-- Code points for which `unicode.IsSpace` holds (the Unicode White_Space property). -/
def isSpace (c : Char) : Bool :=
  let n := c.toNat
  (9 ≤ n && n ≤ 13) || n == 32 || n == 0x85 || n == 0xA0 || n == 0x1680 ||
  (0x2000 ≤ n && n ≤ 0x200A) || n == 0x2028 || n == 0x2029 || n == 0x202F ||
  n == 0x205F || n == 0x3000

/-- Go `strings.TrimSpace`: leading and trailing white space removed. -/
def TrimSpace (s : GoString) : GoString :=
  ((s.dropWhile isSpace).reverse.dropWhile isSpace).reverse

/-- Go `strings.HasPrefix`. -/
def HasPrefix (s pre : GoString) : Bool :=
  pre.isPrefixOf s

/-- Go `strings.Contains`: `substr` occurs in `s`. -/
def Contains : GoString → GoString → Bool
  | [], substr => substr.isEmpty
  | c :: cs, substr => substr.isPrefixOf (c :: cs) || Contains cs substr

/-- Scan of `strings.ReplaceAll` for a non-empty `old`: `skip` counts the characters of the
occurrence just replaced that are still to be passed over. -/
def replaceScan (old new : GoString) : Nat → GoString → GoString
  | _, [] => []
  | skip + 1, _ :: cs => replaceScan old new skip cs
  | 0, c :: cs =>
    if old.isPrefixOf (c :: cs) then new ++ replaceScan old new (old.length - 1) cs
    else c :: replaceScan old new 0 cs

/-- Go `strings.ReplaceAll`: every non-overlapping occurrence of `old`, taken from the left,
is replaced by `new`; an empty `old` matches before every character and at the end. -/
def ReplaceAll (s old new : GoString) : GoString :=
  match old with
  | [] => new ++ s.flatMap (fun c => c :: new)
  | _ :: _ => replaceScan old new 0 s

/-- Image of a rune under `unicode.ToUpper`, exact on the runes whose image is an ASCII
capital letter (`a`..`z`, U+0131 and U+017F); any other rune is kept as it is, which does not
change whether the ASCII words `Do` searches for occur. -/
def toUpperRune (c : Char) : Char :=
  if c = Char.ofNat 0x131 then 'I'
  else if c = Char.ofNat 0x17F then 'S'
  else c.toUpper

/-- Go `strings.ToUpper`. -/
def ToUpper (s : GoString) : GoString :=
  s.map toUpperRune

/-- Go `strings.Split(s, sep)` for a separator of one character, as at both call sites of the
source (`","` and `"="`): the pieces of `s` between the separators, at least one piece. -/
def Split : GoString → Char → List GoString
  | [], _ => [[]]
  | c :: cs, sep =>
    if c = sep then [] :: Split cs sep
    else
      match Split cs sep with
      | [] => [[c]]
      | p :: ps => (c :: p) :: ps

/-! ## Errors, panics and the types of `types.go` -/

/-- Values of the Go interface `error` that `Do` can store in `Result.Err`. -/
inductive GoError where
  /-- `ErrEndpointMissing` of `types.go`: "missing endpoint specification". -/
  | ErrEndpointMissing
  /-- An error of `net/http` or `ioutil.ReadAll`, with its message. -/
  | transport (msg : GoString)
  /-- The `fmt.Errorf("invalid format detected ...")` of `Do`, with the line and the map. -/
  | invalidFormat (line : GoString) (subMatchMap : List (GoString × GoString))
  /-- `strconv.NumError` with `ErrSyntax`, for the token `s`. -/
  | syntaxError (s : GoString)
  /-- `strconv.NumError` with `ErrRange`, for the token `s`. -/
  | rangeError (s : GoString)
  deriving DecidableEq, Repr

/-- A Go run-time panic: `index out of range [index] with length length`. -/
inductive Panic where
  | indexOutOfRange (index : Int) (length : Nat)
  deriving DecidableEq, Repr

deriving instance DecidableEq for Except

/-- Go `type MetricType string`. -/
abbrev MetricType := GoString

def CounterType : MetricType := "COUNTER".toList
def GaugeType : MetricType := "GAUGE".toList
def HistogramType : MetricType := "HISTOGRAM".toList
def SummaryType : MetricType := "SUMMARY".toList
def UnknownType : MetricType := "UNKNOWN".toList

/-- A `float64` as `strconv.ParseFloat` returns it, kept as the decimal number
`(-1)^neg * mant * 10^exp` that was read; the rounding to binary64 is not modelled, and no
property below depends on the numeric value. -/
structure Float64 where
  neg : Bool
  mant : Nat
  exp : Int
  deriving DecidableEq, Repr

/-- Go `map[string]T`: an association list, read by the first entry with the key. -/
abbrev GoMap (β : Type) := List (GoString × β)

/-- Go `m[k] = v`: the entry of `k` is overwritten, or added when `k` is new. -/
def mapAssign {β : Type} : GoMap β → GoString → β → GoMap β
  | [], k, v => [(k, v)]
  | (k', v') :: rest, k, v =>
    if k' = k then (k, v) :: rest else (k', v') :: mapAssign rest k v

/-- Go `v, has := m[k]` (`none` when `has` is false). -/
def mapLookup {β : Type} (m : GoMap β) (k : GoString) : Option β :=
  List.lookup k m

/-- Type `LabelValuePair` of `types.go`. -/
structure LabelValuePair where
  Label : GoMap GoString
  Value : Float64
  deriving DecidableEq, Repr

/-- Type `Metric` of `types.go` (the field `Type` is `Typ` here). -/
structure Metric where
  Name : GoString
  Help : GoString
  Typ : MetricType
  TypeRaw : GoString
  Values : List LabelValuePair
  deriving DecidableEq, Repr

/-- Type `Result` of `types.go`; `Err = none` is the nil error. `Metric` is the list of the
records of the slice (the source never tests this slice against nil). -/
structure Result where
  ResponseStatus : Int
  Err : Option GoError
  Metric : List Metric
  deriving DecidableEq, Repr

/-! ## Slices -/

/-- Elements of a Go slice; the nil slice has none. -/
def sliceList {α : Type} : Option (List α) → List α
  | none => []
  | some l => l

/-- Go `append(s, xs...)`: appending nothing to the nil slice gives the nil slice. -/
def goAppend {α : Type} : Option (List α) → Option (List α) → Option (List α)
  | none, xs => if (sliceList xs).isEmpty then none else some (sliceList xs)
  | some l, xs => some (l ++ sliceList xs)

/-! ## The client and its builders -/

/-- What one GET request comes to, from `http.NewRequest` to `ioutil.ReadAll`. -/
inductive HttpOutcome where
  /-- `http.NewRequest` or `httpClient.Do` returned an error. -/
  | requestError (err : GoError)
  /-- The response came with `status`, and reading its body failed. -/
  | readError (status : Int) (err : GoError)
  /-- The response came with `status` and `body`. -/
  | response (status : Int) (body : GoString)

/-- An `http.Client`: the outcome of a GET request to an endpoint. -/
abbrev HttpTransport := GoString → HttpOutcome

/-- Type `Client` of `client.go`. `NewClient` gives all fields their zero value. -/
structure Client where
  httpClient : Option HttpTransport
  endpoint : GoString
  nameFilter : Option (List GoString)
  typeFilter : Option (List MetricType)
  labelFilter : Option (List (GoMap (List GoString)))

def NewClient : Client :=
  { httpClient := none, endpoint := [], nameFilter := none, typeFilter := none,
    labelFilter := none }

def Client.HttpClient (client : Client) (httpClient : HttpTransport) : Client :=
  { client with httpClient := some httpClient }

def Client.Endpoint (client : Client) (endpoint : GoString) : Client :=
  { client with endpoint := endpoint }

/-- Method `FilterByName(filters...)`; `filters` is the variadic slice, nil for a call without
arguments. -/
def Client.FilterByName (client : Client) (filters : Option (List GoString)) : Client :=
  if client.nameFilter.isNone then
    { client with nameFilter := filters }
  else
    { client with nameFilter := goAppend client.nameFilter filters }

/-- Method `FilterByType(filters...)`. The test of the first branch reads `client.nameFilter`, as in
the source. -/
def Client.FilterByType (client : Client) (filters : Option (List MetricType)) : Client :=
  if client.nameFilter.isNone then
    { client with typeFilter := filters }
  else
    { client with typeFilter := goAppend client.typeFilter filters }

/-- Method `FilterByLabel(filters...)`. -/
def Client.FilterByLabel (client : Client)
    (filters : Option (List (GoMap (List GoString)))) : Client :=
  if client.labelFilter.isNone then
    { client with labelFilter := filters }
  else
    { client with labelFilter := goAppend client.labelFilter filters }

/-! ## `bufio.Scanner` with the default split function `ScanLines` -/

/-- Length in bytes of the UTF-8 encoding of a string. -/
def byteLen (s : GoString) : Nat :=
  (s.map Char.utf8Size).sum

/-- Constant `bufio.MaxScanTokenSize`, the size of the buffer of a scanner. -/
def MaxScanTokenSize : Nat := 64 * 1024

/-- Function `dropCR` of `bufio`: one trailing carriage return is removed. -/
def dropCR (data : GoString) : GoString :=
  if data.getLast? = some '\r' then data.dropLast else data

/-- Tokens the scanner delivers, given the pieces of the input between line feeds: a piece
that does not fit the buffer together with one more byte stops the scan (`ErrTooLong`, which
`Do` does not look at), and the piece after the last line feed is a token unless it is
empty. -/
def scanTokens : List GoString → List GoString
  | [] => []
  | [data] =>
    if data.isEmpty then []
    else if byteLen data < MaxScanTokenSize then [dropCR data] else []
  | data :: next :: rest =>
    if byteLen data < MaxScanTokenSize then dropCR data :: scanTokens (next :: rest) else []

/-- The sequence of `scanner.Text()` over the calls of `scanner.Scan()` that return true. -/
def scanLines (body : GoString) : List GoString :=
  scanTokens (Split body '\n')

/-! ## `strconv.ParseFloat` -/

/-- Number written by a string of decimal digits. -/
def digitsValue (ds : GoString) : Nat :=
  ds.foldl (fun n c => 10 * n + (c.toNat - '0'.toNat)) 0

/-- Exponent read by `strconv`: once it has reached 10000 further digits are ignored. -/
def exponentValue (ds : GoString) : Nat :=
  ds.foldl (fun e c => if e < 10000 then e * 10 + (c.toNat - '0'.toNat) else e) 0

/-- An optional sign and what follows it. -/
def readSign : GoString → Bool × GoString
  | [] => (false, [])
  | c :: cs => if c = '+' then (false, cs) else if c = '-' then (true, cs) else (false, c :: cs)

/-- The number `2^1024 - 2^970`, half way between the largest finite `float64` and `2^1024`:
the least number that rounds to an infinity. -/
def overflowThreshold : Nat :=
  179769313486231580793728971405303415079934132710037826936173778980444968292764750946649017977587207096330286416692887910946555547851940402630657488671505820681908902000708383676273854845817711531764475730270069855571366959622842914819860834936475292719074168444365510704342711559699508093042880177904174497792

/-- The decimal `mant * 10^exp` is at least `overflowThreshold`. -/
def overflows (mant : Nat) (exp : Int) : Bool :=
  match exp with
  | Int.ofNat k => decide (overflowThreshold ≤ mant * 10 ^ k)
  | Int.negSucc k => decide (overflowThreshold * 10 ^ (k + 1) ≤ mant)

/-- The exponent part of a decimal literal, what is left after the mantissa: nothing, or `e`,
an optional sign and at least one digit. -/
def readExponent : GoString → Option Int
  | [] => some 0
  | c :: cs =>
    if c = 'e' ∨ c = 'E' then
      let (eneg, ds) := readSign cs
      if ds.isEmpty ∨ !ds.all Char.isDigit then none
      else some (if eneg then -(exponentValue ds : Int) else (exponentValue ds : Int))
    else none

/-- Go `strconv.ParseFloat(s, 64)` on decimal literals: an optional sign, digits with at most
one point and at least one digit, an optional exponent. A string of another form is a syntax
error (the special values, hexadecimal literals and underscores that `ParseFloat` also reads
contain characters that the pattern of `Do` does not let through); a number that rounds to an
infinity is a range error. -/
def ParseFloat (s : GoString) : Except GoError Float64 :=
  let (neg, s1) := readSign s
  let intDigits := s1.takeWhile Char.isDigit
  let s2 := s1.dropWhile Char.isDigit
  let afterPoint := match s2 with
    | [] => none
    | c :: cs => if c = '.' then some cs else none
  let fracDigits := match afterPoint with
    | some cs => cs.takeWhile Char.isDigit
    | none => []
  let s3 := match afterPoint with
    | some cs => cs.dropWhile Char.isDigit
    | none => s2
  if intDigits.isEmpty ∧ fracDigits.isEmpty then .error (.syntaxError s)
  else
    match readExponent s3 with
    | none => .error (.syntaxError s)
    | some e =>
      let mant := digitsValue (intDigits ++ fracDigits)
      let exp := e - (fracDigits.length : Int)
      if overflows mant exp then .error (.rangeError s)
      else .ok { neg := neg, mant := mant, exp := exp }

/-! ## The pattern of `Do` -/

/-- Character class `[a-zA-Z_:]`. -/
def isNameStart (c : Char) : Bool :=
  c.isAlpha || c == '_' || c == ':'

/-- Character class `[a-zA-Z0-9_:]`. -/
def isNameChar (c : Char) : Bool :=
  c.isAlphanum || c == '_' || c == ':'

/-- Character class `[0-9e.+-]`. -/
def isValueChar (c : Char) : Bool :=
  c.isDigit || c == 'e' || c == '.' || c == '+' || c == '-'

/-- Match of the end of the pattern, ` (?P<value>[0-9e.+-]*)$`: the value group. -/
def matchValue : GoString → Option GoString
  | [] => none
  | c :: value => if c = ' ' ∧ value.all isValueChar then some value else none

/-- Call `regex.FindStringSubmatch(line)` for the pattern
`^(?P<name>[a-zA-Z_:][a-zA-Z0-9_:]*)({(?P<labels>[^}]*)})? (?P<value>[0-9e.+-]*)$`:
the empty list (nil) when the line does not match, else the five groups: the whole match, the
name, the brace block, the labels and the value, a group that took no part being empty. The
name is the longest run of name characters, since what follows it is a brace or a space; the
labels run up to the first closing brace. -/
def FindStringSubmatch (line : GoString) : List GoString :=
  match line with
  | [] => []
  | c :: cs =>
    if isNameStart c then
      let name := c :: cs.takeWhile isNameChar
      match cs.dropWhile isNameChar with
      | [] => []
      | d :: rest =>
        if d = '{' then
          let labels := rest.takeWhile (fun x => x != '}')
          match rest.dropWhile (fun x => x != '}') with
          | [] => []
          | _ :: afterBrace =>
            match matchValue afterBrace with
            | some value => [line, name, '{' :: (labels ++ ['}']), labels, value]
            | none => []
        else
          match matchValue (d :: rest) with
          | some value => [line, name, [], [], value]
          | none => []
    else []

/-- Result of `regex.SubexpNames()` for the pattern. -/
def SubexpNames : List GoString :=
  [[], "name".toList, [], "labels".toList, "value".toList]

/-! ## `Client.Do` -/

/-- The locals `lastHelp`, `lastTypeRaw` and `lastType` of `Do`. -/
structure Pending where
  lastHelp : GoString
  lastTypeRaw : GoString
  lastType : MetricType
  deriving DecidableEq, Repr

/-- The part of the state of `Do` that the grouping writes: `result.Metric` and the local
`lastMetricName`. -/
structure Acc where
  Metric : List Metric
  lastMetricName : GoString
  deriving DecidableEq, Repr

/-- A sample line as decoded by `Do`: the locals `metricName`, `value` and `labels`, and the
pending metadata after lines 175-181 have compared it with the name. -/
structure Sample where
  metricName : GoString
  value : Float64
  labels : GoMap GoString
  pending : Pending
  deriving DecidableEq, Repr

/-- Why the decoding of a sample line leaves `Do` early. -/
inductive Abort where
  /-- `result.Err = err; return result`. -/
  | ret (err : GoError)
  /-- A run-time panic. -/
  | panic (p : Panic)
  deriving DecidableEq, Repr

/-- The marker `"# HELP "` of a help comment. -/
def helpMarker : GoString := "# HELP ".toList

/-- The marker `"# TYPE "` of a type comment. -/
def typeMarker : GoString := "# TYPE ".toList

/-- The loop of lines 146-151 over `regex.SubexpNames()`: a named group is stored when it is
not empty; `matches[i]` panics when `i` is not an index of `matches` (here `matched`). -/
def fillSubMatchMap (matched : List GoString) :
    List (Nat × GoString) → GoMap GoString → Except Panic (GoMap GoString)
  | [], subMatchMap => .ok subMatchMap
  | (i, name) :: rest, subMatchMap =>
    if name ≠ [] then
      match matched[i]? with
      | none => .error (.indexOutOfRange i matched.length)
      | some group =>
        if group.length > 0 then fillSubMatchMap matched rest (mapAssign subMatchMap name group)
        else fillSubMatchMap matched rest subMatchMap
    else fillSubMatchMap matched rest subMatchMap

/-- The loop of lines 170-173 over the label pairs: `tmp[1]` panics when the pair has no
equals sign. -/
def labelPairs : List GoString → GoMap GoString → Except Panic (GoMap GoString)
  | [], labels => .ok labels
  | label :: rest, labels =>
    let tmp := Split label '='
    match tmp[0]?, tmp[1]? with
    | some key, some val => labelPairs rest (mapAssign labels key (ReplaceAll val ['"'] []))
    | _, _ => .error (.indexOutOfRange 1 tmp.length)

/-- Lines 142-174 of `Do`: a sample line is matched against the pattern and decoded into
`metricName`, `value` and `labels`. -/
def decodeSample (line : GoString) : Except Abort (GoString × Float64 × GoMap GoString) :=
  let matched := FindStringSubmatch line
  match fillSubMatchMap matched SubexpNames.enum [] with
  | .error p => .error (.panic p)
  | .ok subMatchMap =>
    if matched.length ≠ 5 ∧ matched.length ≠ 3 then
      .error (.ret (.invalidFormat line subMatchMap))
    else
      let metricName := (mapLookup subMatchMap "name".toList).getD []
      match ParseFloat ((mapLookup subMatchMap "value".toList).getD []) with
      | .error err => .error (.ret err)
      | .ok value =>
        match mapLookup subMatchMap "labels".toList with
        | some labelsString =>
          match labelPairs (Split labelsString ',') [] with
          | .error p => .error (.panic p)
          | .ok labels => .ok (metricName, value, labels)
        | none => .ok (metricName, value, [])

/-- Lines 124-140 of `Do`, a `# TYPE ` line: the type text is stored, and each tag found in
the upper-cased line is assigned to `lastType` in turn. -/
def typeComment (p : Pending) (line : GoString) : Pending :=
  let lastTypeRaw := ReplaceAll line typeMarker []
  let line := ToUpper line
  let lastType := p.lastType
  let lastType := if Contains line CounterType then CounterType else lastType
  let lastType := if Contains line GaugeType then GaugeType else lastType
  let lastType := if Contains line HistogramType then HistogramType else lastType
  let lastType := if Contains line SummaryType then SummaryType else lastType
  { p with lastTypeRaw := lastTypeRaw, lastType := lastType }

/-- Lines 175-181 of `Do`: pending metadata that does not start with the name is cleared. -/
def resolve (p : Pending) (metricName : GoString) : Pending :=
  let lastHelp := if !HasPrefix p.lastHelp metricName then [] else p.lastHelp
  if !HasPrefix p.lastTypeRaw metricName then
    { lastHelp := lastHelp, lastTypeRaw := [], lastType := UnknownType }
  else
    { lastHelp := lastHelp, lastTypeRaw := p.lastTypeRaw, lastType := p.lastType }

/-- What lines 116-181 of `Do` make of one line. -/
inductive LineResult where
  /-- A blank line or a comment: `continue`, with the pending metadata. -/
  | skip (p : Pending)
  /-- A decoded sample, on its way to the filters. -/
  | sample (s : Sample)
  /-- `result.Err = err; return result`. -/
  | ret (err : GoError)
  /-- A run-time panic. -/
  | panic (p : Panic)
  deriving DecidableEq, Repr

/-- Lines 116-181 of `Do`: the line is classified, and a sample line is decoded. -/
def readLine (p : Pending) (line : GoString) : LineResult :=
  if (TrimSpace line).length = 0 then .skip p
  else if HasPrefix line helpMarker then
    .skip { p with lastHelp := ReplaceAll line helpMarker [] }
  else if HasPrefix line typeMarker then
    .skip (typeComment p line)
  else
    match decodeSample line with
    | .error (.ret err) => .ret err
    | .error (.panic q) => .panic q
    | .ok (metricName, value, labels) =>
      .sample { metricName := metricName, value := value, labels := labels,
                pending := resolve p metricName }

/-- Lines 195-202 of `Do`: every key of the filter set is a label of the sample, with one of
the accepted values. -/
def matchSet (labels : GoMap GoString) (labelFilter : GoMap (List GoString)) : Bool :=
  labelFilter.all fun (filterKey, filterValue) =>
    match mapLookup labels filterKey with
    | some value => filterValue.contains value
    | none => false

/-- Lines 183-212 of `Do`: the three filters; `false` is the `continue` of a filter. -/
def admitted (client : Client) (s : Sample) : Bool :=
  if (sliceList client.nameFilter).length > 0 ∧
      !(sliceList client.nameFilter).contains s.metricName then false
  else if (sliceList client.typeFilter).length > 0 ∧
      !(sliceList client.typeFilter).contains s.pending.lastType then false
  else if (sliceList client.labelFilter).length > 0 then
    (sliceList client.labelFilter).any (matchSet s.labels)
  else true

/-- The statement `result.Metric[len(result.Metric)-1].Values = append(..., pair)`; `none`
when the slice is empty and the index is out of range. -/
def appendToLast (pair : LabelValuePair) : List Metric → Option (List Metric)
  | [] => none
  | [m] => some [{ m with Values := m.Values ++ [pair] }]
  | m :: next :: rest => (appendToLast pair (next :: rest)).map (m :: ·)

/-- Lines 214-237 of `Do`: a sample that passed the filters opens a record when its name is
not `lastMetricName`, and else joins the last record. -/
def accumulate (acc : Acc) (s : Sample) : Except Panic Acc :=
  if acc.lastMetricName ≠ s.metricName then
    .ok
      { lastMetricName := s.metricName
        Metric := acc.Metric ++
          [{ Name := s.metricName
             Help := ReplaceAll s.pending.lastHelp (s.metricName ++ [' ']) []
             Typ := s.pending.lastType
             TypeRaw := ReplaceAll s.pending.lastTypeRaw (s.metricName ++ [' ']) []
             Values := [{ Label := s.labels, Value := s.value }] }] }
  else
    match appendToLast { Label := s.labels, Value := s.value } acc.Metric with
    | none => .error (.indexOutOfRange (-1) 0)
    | some metric => .ok { acc with Metric := metric }

/-- The loop `for scanner.Scan()` of `Do` over the lines still to come, and the final
`return result`. -/
def scanLoop (client : Client) (status : Int) :
    Pending → Acc → List GoString → Except Panic Result
  | _, acc, [] => .ok { ResponseStatus := status, Err := none, Metric := acc.Metric }
  | p, acc, line :: rest =>
    match readLine p line with
    | .skip p' => scanLoop client status p' acc rest
    | .ret err => .ok { ResponseStatus := status, Err := some err, Metric := acc.Metric }
    | .panic q => .error q
    | .sample s =>
      if admitted client s then
        match accumulate acc s with
        | .error q => .error q
        | .ok acc' => scanLoop client status s.pending acc' rest
      else scanLoop client status s.pending acc rest

/-- The locals of `Do` before the loop (lines 108-110). -/
def Pending.init : Pending :=
  { lastHelp := [], lastTypeRaw := [], lastType := UnknownType }

/-- The record list and `lastMetricName` before the loop (lines 107 and 111). -/
def Acc.init : Acc :=
  { Metric := [], lastMetricName := [] }

/-- Method `Client.Do`. `DefaultClient` is `http.DefaultClient`, used when the client has none of
its own; the result is a returned `Result`, or the panic that ends the call. -/
def Client.Do (DefaultClient : HttpTransport) (client : Client) : Except Panic Result :=
  if client.endpoint.isEmpty then
    .ok { ResponseStatus := 0, Err := some .ErrEndpointMissing, Metric := [] }
  else
    match (client.httpClient.getD DefaultClient) client.endpoint with
    | .requestError err => .ok { ResponseStatus := 0, Err := some err, Metric := [] }
    | .readError status err => .ok { ResponseStatus := status, Err := some err, Metric := [] }
    | .response status body =>
      scanLoop client status Pending.init Acc.init (scanLines body)

/-- An HTTP client that answers every request with `status` and `body`. -/
def serve (status : Int) (body : GoString) : HttpTransport :=
  fun _ => .response status body

/-! ## The samples of a document, read apart from the filters and the grouping -/

/-- The samples that lines 116-181 of `Do` decode from the lines in turn, each with the
pending metadata as compared with its name; the list ends at a line that ends `Do`. -/
def samplesFrom : Pending → List GoString → List Sample
  | _, [] => []
  | p, line :: rest =>
    match readLine p line with
    | .skip p' => samplesFrom p' rest
    | .sample s => s :: samplesFrom s.pending rest
    | .ret _ => []
    | .panic _ => []

/-- How the loop of `Do` ends over the lines: `none` when the scanner runs out of lines, else
the early return or the panic of the first line that ends `Do`. -/
def scanEnd : Pending → List GoString → Option Abort
  | _, [] => none
  | p, line :: rest =>
    match readLine p line with
    | .skip p' => scanEnd p' rest
    | .sample s => scanEnd s.pending rest
    | .ret err => some (.ret err)
    | .panic q => some (.panic q)

/-- The samples of a response body, in the order of the source text. -/
def samples (body : GoString) : List Sample :=
  samplesFrom Pending.init (scanLines body)

/-- Lines 214-237 of `Do` over a list of admitted samples. -/
def groupFrom : Acc → List Sample → Except Panic Acc
  | acc, [] => .ok acc
  | acc, s :: rest =>
    match accumulate acc s with
    | .error q => .error q
    | .ok acc' => groupFrom acc' rest

/-- The (labels, value) pair of a sample. -/
def Sample.pair (s : Sample) : LabelValuePair :=
  { Label := s.labels, Value := s.value }

/-- The heading of a record: its name, help text, type and type text. -/
def Metric.heading (m : Metric) : GoString × GoString × MetricType × GoString :=
  (m.Name, m.Help, m.Typ, m.TypeRaw)

/-- The (labels, value) pairs of a list of records, read in order. -/
def allPairs (metric : List Metric) : List LabelValuePair :=
  metric.flatMap Metric.Values

/-- Lines 116-140 of `Do` pass the line over: it is blank, or a `# HELP ` or `# TYPE `
comment. -/
def isSkipped (line : GoString) : Bool :=
  (TrimSpace line).length = 0 || HasPrefix line helpMarker ||
    HasPrefix line typeMarker

/-- The sample lines of a response body, each decoded on its own into metric name, value and
labels (a line whose decoding fails gives no entry). -/
def decodedLines (body : GoString) : List (GoString × Float64 × GoMap GoString) :=
  (scanLines body).filterMap fun line =>
    if isSkipped line then none else (decodeSample line).toOption

/-- The spec's words on label filters: a sample matches a filter set when, for every key of
the set, the sample has that label key and its value is one of the accepted values. -/
def matchesFilterSet (labels : GoMap GoString) (filterSet : GoMap (List GoString)) : Prop :=
  ∀ entry ∈ filterSet, ∃ v ∈ entry.2, mapLookup labels entry.1 = some v

instance (labels : GoMap GoString) (filterSet : GoMap (List GoString)) :
    Decidable (matchesFilterSet labels filterSet) := by
  unfold matchesFilterSet; infer_instance

/-- The spec's words on label filters: a sample is admitted when it matches any of the
filter sets. -/
def matchesAnyFilterSet (labels : GoMap GoString) (filterSets : List (GoMap (List GoString))) :
    Prop :=
  ∃ filterSet ∈ filterSets, matchesFilterSet labels filterSet

instance (labels : GoMap GoString) (filterSets : List (GoMap (List GoString))) :
    Decidable (matchesAnyFilterSet labels filterSets) := by
  unfold matchesAnyFilterSet; infer_instance

/-- The line `# HELP N H`. -/
def helpLine (N H : GoString) : GoString :=
  helpMarker ++ (N ++ ' ' :: H)

/-- The line `# TYPE N T`. -/
def typeLine (N T : GoString) : GoString :=
  typeMarker ++ (N ++ ' ' :: T)

/-- The example body of the two lines `up{a="x"} 1` and `up{a="y"} 2`. -/
def labelledBody : GoString :=
  "up\x7ba=\"x\"\x7d 1\nup\x7ba=\"y\"\x7d 2".toList

/-- The four known tags, in the fixed order in which `Do` tests for them. -/
def knownTags : List MetricType :=
  [CounterType, GaugeType, HistogramType, SummaryType]

/-- The spec's words on a type comment: the known tags whose token occurs in the upper-cased
text, in the fixed order. -/
def matchingTags (upper : GoString) : List MetricType :=
  knownTags.filter fun tag => Contains upper tag

/-- The number of entries of a list of names that differ from the entry before them, `prev`
standing before the first entry. -/
def nameChanges (prev : GoString) : List GoString → Nat
  | [] => 0
  | a :: rest => (if prev = a then 0 else 1) + nameChanges a rest

/-- The spec's words on grouping: the number of maximal runs of consecutive equal names. -/
def countRuns (names : List GoString) : Nat :=
  (names.splitBy fun a b => a == b).length

/-- The (labels, value) pairs of a list of records, each with the name of its record. -/
def namedPairs (metric : List Metric) : List (GoString × LabelValuePair) :=
  metric.flatMap fun m => m.Values.map fun v => (m.Name, v)

/-- What the grouping of `Do` keeps true of the record list and `lastMetricName`: every record
has a name and at least one pair, adjacent records differ in their name, and
`lastMetricName` is the name of the last record, or empty when there is no record. -/
def Acc.Inv (acc : Acc) : Prop :=
  (∀ m ∈ acc.Metric, m.Values ≠ [] ∧ m.Name ≠ []) ∧
  List.Chain' (fun a b : Mget.Metric => a.Name ≠ b.Name) acc.Metric ∧
  (acc.Metric.getLast?.map Mget.Metric.Name).getD [] = acc.lastMetricName

/-- The client with the same endpoint and HTTP client and no filter. -/
def Client.withoutFilters (client : Client) : Client :=
  { client with nameFilter := none, typeFilter := none, labelFilter := none }

/-- A record without metadata, as `Do` makes it of samples that no comment describes. -/
def plainRecord (name : GoString) (values : List Nat) : Metric :=
  { Name := name, Help := [], Typ := UnknownType, TypeRaw := [],
    Values := values.map fun n => { Label := [], Value := { neg := false, mant := n, exp := 0 } } }

/-- The example body of the four lines `a 1`, `a 2`, `b 3`, `a 4`. -/
def runsBody : GoString := "a 1\na 2\nb 3\na 4".toList

/-- The result of `Do` for `runsBody` without filters: three records. -/
def runsResult : Result :=
  { ResponseStatus := 200, Err := none,
    Metric := [plainRecord ['a'] [1, 2], plainRecord ['b'] [3], plainRecord ['a'] [4]] }

/-- A sample without labels and without pending metadata. -/
def plainSample (name : GoString) (n : Nat) : Sample :=
  { metricName := name, value := { neg := false, mant := n, exp := 0 }, labels := [],
    pending := Pending.init }

/-- The example body of the three lines `up 1`, `down 2`, `up 3`. -/
def upDownBody : GoString := "up 1\ndown 2\nup 3".toList

/-- A character that is none of the comma, the equals sign, the double quote and the closing
brace. -/
def isLabelChar (ch : Char) : Bool :=
  ch != ',' && ch != '=' && ch != '"' && ch != '\x7d'

/-- The text `k="v"` of a label pair. -/
def labelText (kv : GoString × GoString) : GoString :=
  kv.1 ++ '=' :: '"' :: (kv.2 ++ ['"'])

/-- The text of a brace block: the label pairs, separated by commas. -/
def labelBlock : List (GoString × GoString) → GoString
  | [] => []
  | [kv] => labelText kv
  | kv :: next :: rest => labelText kv ++ ',' :: labelBlock (next :: rest)

/-- The sample line `N{k1="v1",...,kn="vn"} x`; without pairs it is `N{} x`. -/
def labelledLine (N : GoString) (pairs : List (GoString × GoString)) (x : GoString) :
    GoString :=
  N ++ '\x7b' :: (labelBlock pairs ++ '\x7d' :: ' ' :: x)

/-- The sample line `N x`, without brace block. -/
def plainLine (N x : GoString) : GoString :=
  N ++ ' ' :: x

/-- A metric name: a character of `[a-zA-Z_:]` followed by characters of `[a-zA-Z0-9_:]`. -/
def isMetricName : GoString → Bool
  | [] => false
  | c :: cs => isNameStart c && cs.all isNameChar

/-- The mapping in which the pairs are assigned in turn, starting from the empty mapping. -/
def assignAll (pairs : List (GoString × GoString)) : GoMap GoString :=
  pairs.foldl (fun labels kv => mapAssign labels kv.1 kv.2) []

/-- An endpoint for the examples. -/
def exampleEndpoint : GoString := "http://localhost:8080/metrics".toList

/-! ## The builders -/

theorem sliceList_goAppend {α : Type} (s xs : Option (List α)) :
    sliceList (goAppend s xs) = sliceList s ++ sliceList xs := by
  cases s with
  | none =>
    cases xs with
    | none => rfl
    | some l => cases l <;> rfl
  | some l => rfl

theorem sliceList_of_isNone {α : Type} (s : Option (List α)) (h : s.isNone = true) :
    sliceList s = [] := by
  cases s with
  | none => rfl
  | some l => simp at h

theorem FilterByName_nameFilter (c : Client) (xs : Option (List GoString)) :
    sliceList (c.FilterByName xs).nameFilter = sliceList c.nameFilter ++ sliceList xs := by
  unfold Client.FilterByName
  split
  · next h => simp [sliceList_of_isNone _ h]
  · simp [sliceList_goAppend]

theorem FilterByLabel_labelFilter (c : Client) (xs : Option (List (GoMap (List GoString)))) :
    sliceList (c.FilterByLabel xs).labelFilter = sliceList c.labelFilter ++ sliceList xs := by
  unfold Client.FilterByLabel
  split
  · next h => simp [sliceList_of_isNone _ h]
  · simp [sliceList_goAppend]

theorem FilterByName_others (c : Client) (xs : Option (List GoString)) :
    (c.FilterByName xs).typeFilter = c.typeFilter ∧
    (c.FilterByName xs).labelFilter = c.labelFilter ∧
    (c.FilterByName xs).endpoint = c.endpoint := by
  unfold Client.FilterByName
  split <;> simp

theorem FilterByLabel_others (c : Client) (xs : Option (List (GoMap (List GoString)))) :
    (c.FilterByLabel xs).nameFilter = c.nameFilter ∧
    (c.FilterByLabel xs).typeFilter = c.typeFilter ∧
    (c.FilterByLabel xs).endpoint = c.endpoint := by
  unfold Client.FilterByLabel
  split <;> simp

/-- C3 (the code departs from the claim): on a fresh client, with no name filter,
`FilterByType(COUNTER)` followed by `FilterByType(GAUGE)` leaves the type filter `[GAUGE]`,
not `[COUNTER, GAUGE]`: the second call overwrites the first, because `FilterByType` tests
`client.nameFilter == nil` where its siblings test their own field. -/
theorem FilterByType_overwrites_without_name_filter :
    sliceList ((NewClient.FilterByType (some [CounterType])).FilterByType
      (some [GaugeType])).typeFilter = [GaugeType] ∧
    sliceList ((NewClient.FilterByType (some [CounterType])).FilterByType
      (some [GaugeType])).typeFilter ≠
      sliceList NewClient.typeFilter ++ [CounterType] ++ [GaugeType] := by
  decide

/-- C4: `FilterByName(xs...)` then `FilterByName(ys...)` leaves the name filter equal to the
previous name filter followed by `xs` then `ys`, and `FilterByLabel(us...)` then
`FilterByLabel(vs...)` leaves the label filter equal to the previous label filter followed by
`us` then `vs`; a call of either builder leaves the other two filters and the endpoint as
they were. -/
theorem FilterByName_FilterByLabel_accumulate (c : Client) (xs ys : Option (List GoString))
    (us vs : Option (List (GoMap (List GoString)))) :
    (sliceList ((c.FilterByName xs).FilterByName ys).nameFilter =
        sliceList c.nameFilter ++ sliceList xs ++ sliceList ys ∧
      (c.FilterByName xs).typeFilter = c.typeFilter ∧
      (c.FilterByName xs).labelFilter = c.labelFilter ∧
      (c.FilterByName xs).endpoint = c.endpoint) ∧
    (sliceList ((c.FilterByLabel us).FilterByLabel vs).labelFilter =
        sliceList c.labelFilter ++ sliceList us ++ sliceList vs ∧
      (c.FilterByLabel us).nameFilter = c.nameFilter ∧
      (c.FilterByLabel us).typeFilter = c.typeFilter ∧
      (c.FilterByLabel us).endpoint = c.endpoint) := by
  refine ⟨⟨?_, FilterByName_others c xs⟩, ⟨?_, FilterByLabel_others c us⟩⟩
  · rw [FilterByName_nameFilter, FilterByName_nameFilter]
  · rw [FilterByLabel_labelFilter, FilterByLabel_labelFilter]

/-! ## Lines that do not parse -/

/-- C1 (the code departs from the claim): for the bodies `foo{bar 1` and ` # HELP x y`, whose
one line is not blank, is no `# HELP ` or `# TYPE ` comment and does not match the sample
pattern, `Do` returns no `Result`: it panics with `index out of range [1] with length 0`, in
the loop over the group names that reads `matches[i]` before the length of `matches` is
tested. -/
theorem Do_panics_on_unmatched_line :
    (NewClient.Endpoint exampleEndpoint).Do (serve 200 "foo\x7bbar 1".toList) =
      .error (.indexOutOfRange 1 0) ∧
    (NewClient.Endpoint exampleEndpoint).Do (serve 200 " # HELP x y".toList) =
      .error (.indexOutOfRange 1 0) := by
  set_option maxRecDepth 100000 in decide

/-- C2, counterexample: for the body `a 1`, `b .` the value token `.` of the second line is
no number, and `Do` returns the error together with the record of the first line; the record
list is not empty. -/
theorem Do_value_error_keeps_earlier_record :
    (NewClient.Endpoint exampleEndpoint).Do (serve 200 "a 1\nb .".toList) =
      .ok { ResponseStatus := 200, Err := some (.syntaxError ['.']),
            Metric := [{ Name := ['a'], Help := [], Typ := UnknownType, TypeRaw := [],
                         Values := [{ Label := [],
                                      Value := { neg := false, mant := 1, exp := 0 } }] }] } := by
  set_option maxRecDepth 100000 in decide
/-! ## The loop as filter and grouping of the samples -/

theorem scanLoop_eq (c : Client) (status : Int) (lines : List GoString) :
    ∀ (p : Pending) (acc : Acc),
      scanLoop c status p acc lines =
        match groupFrom acc ((samplesFrom p lines).filter (admitted c)) with
        | .error q => .error q
        | .ok acc' =>
          match scanEnd p lines with
          | none => .ok { ResponseStatus := status, Err := none, Metric := acc'.Metric }
          | some (.ret err) =>
            .ok { ResponseStatus := status, Err := some err, Metric := acc'.Metric }
          | some (.panic q) => .error q := by
  induction lines with
  | nil => intro p acc; simp [scanLoop, samplesFrom, groupFrom, scanEnd]
  | cons line rest ih =>
    intro p acc
    cases h : readLine p line with
    | skip p' => simp only [scanLoop, samplesFrom, scanEnd, h]; exact ih p' acc
    | ret err => simp [scanLoop, samplesFrom, groupFrom, scanEnd, h]
    | panic q => simp [scanLoop, samplesFrom, groupFrom, scanEnd, h]
    | sample s =>
      simp only [scanLoop, samplesFrom, scanEnd, h]
      by_cases ha : admitted c s = true
      · simp only [ha, if_true, List.filter_cons_of_pos, groupFrom]
        cases hacc : accumulate acc s with
        | error q => simp
        | ok acc' => simp only []; exact ih s.pending acc'
      · rw [List.filter_cons_of_neg ha]
        simpa [ha] using ih s.pending acc

theorem allPairs_append (xs ys : List Metric) :
    allPairs (xs ++ ys) = allPairs xs ++ allPairs ys := by
  simp [allPairs]

theorem appendToLast_allPairs (pair : LabelValuePair) :
    ∀ (ms ms' : List Metric), appendToLast pair ms = some ms' →
      allPairs ms' = allPairs ms ++ [pair] ∧ ms'.map Metric.heading = ms.map Metric.heading := by
  intro ms
  induction ms with
  | nil => intro ms' h; simp [appendToLast] at h
  | cons m rest ih =>
    intro ms' h
    cases rest with
    | nil =>
      simp only [appendToLast, Option.some.injEq] at h
      subst h
      simp [allPairs, Metric.heading]
    | cons next rest' =>
      simp only [appendToLast, Option.map_eq_some'] at h
      obtain ⟨tl, htl, rfl⟩ := h
      obtain ⟨h1, h2⟩ := ih tl htl
      constructor
      · have : allPairs (m :: tl) = m.Values ++ allPairs tl := by simp [allPairs]
        rw [this, h1]
        simp [allPairs]
      · simp [h2]

theorem accumulate_allPairs (acc acc' : Acc) (s : Sample) (h : accumulate acc s = .ok acc') :
    allPairs acc'.Metric = allPairs acc.Metric ++ [s.pair] := by
  unfold accumulate at h
  split at h
  · simp only [Except.ok.injEq] at h
    subst h
    simp [allPairs, Sample.pair]
  · split at h
    · simp at h
    · next metric hm =>
      simp only [Except.ok.injEq] at h
      subst h
      exact (appendToLast_allPairs _ _ _ hm).1

theorem groupFrom_allPairs (ss : List Sample) :
    ∀ (acc acc' : Acc), groupFrom acc ss = .ok acc' →
      allPairs acc'.Metric = allPairs acc.Metric ++ ss.map Sample.pair := by
  induction ss with
  | nil => intro acc acc' h; simp [groupFrom] at h; simp [h]
  | cons s rest ih =>
    intro acc acc' h
    simp only [groupFrom] at h
    cases hacc : accumulate acc s with
    | error q => simp [hacc] at h
    | ok mid =>
      simp only [hacc] at h
      rw [ih mid acc' h, accumulate_allPairs acc mid s hacc]
      simp

/-- A property of the name and the type of a record that holds of the samples holds of the
records made of them. -/
theorem groupFrom_heading (Q : GoString → MetricType → Prop) (ss : List Sample) :
    ∀ (acc acc' : Acc), groupFrom acc ss = .ok acc' →
      (∀ m ∈ acc.Metric, Q m.Name m.Typ) →
      (∀ s ∈ ss, Q s.metricName s.pending.lastType) →
      ∀ m ∈ acc'.Metric, Q m.Name m.Typ := by
  induction ss with
  | nil => intro acc acc' h hacc _; simp [groupFrom] at h; subst h; exact hacc
  | cons s rest ih =>
    intro acc acc' h hacc hss
    simp only [groupFrom] at h
    cases hmid : accumulate acc s with
    | error q => simp [hmid] at h
    | ok mid =>
      simp only [hmid] at h
      refine ih mid acc' h ?_ (fun t ht => hss t (List.mem_cons_of_mem _ ht))
      unfold accumulate at hmid
      split at hmid
      · simp only [Except.ok.injEq] at hmid
        subst hmid
        intro m hm
        simp only [List.mem_append, List.mem_singleton] at hm
        rcases hm with hm | rfl
        · exact hacc m hm
        · exact hss s (List.mem_cons_self _ _)
      · split at hmid
        · simp at hmid
        · next metric hm =>
          simp only [Except.ok.injEq] at hmid
          subst hmid
          have hh := (appendToLast_allPairs _ _ _ hm).2
          intro m hmem
          have : m.heading ∈ acc.Metric.map Metric.heading := by
            rw [← hh]; exact List.mem_map_of_mem _ hmem
          obtain ⟨m0, hm0, he⟩ := List.mem_map.1 this
          have h1 : m0.Name = m.Name := congrArg (fun t => t.1) he
          have h2 : m0.Typ = m.Typ := congrArg (fun t => t.2.2.1) he
          rw [← h1, ← h2]
          exact hacc m0 hm0
/-! ## The pattern and the decoding of a sample line -/

theorem FindStringSubmatch_cases (line : GoString) :
    FindStringSubmatch line = [] ∨
    ∃ c cs block labels value, line = c :: cs ∧ isNameStart c = true ∧
      FindStringSubmatch line = [line, c :: cs.takeWhile isNameChar, block, labels, value] := by
  unfold FindStringSubmatch
  split
  · exact Or.inl rfl
  · next c cs =>
    split
    · next hc =>
      simp only []
      split
      · exact Or.inl rfl
      · next d rest hd =>
        split
        · split
          · exact Or.inl rfl
          · split
            · exact Or.inr ⟨c, cs, _, _, _, rfl, hc, rfl⟩
            · exact Or.inl rfl
        · split
          · exact Or.inr ⟨c, cs, _, _, _, rfl, hc, rfl⟩
          · exact Or.inl rfl
    · exact Or.inl rfl

theorem SubexpNames_enum :
    SubexpNames.enum =
      [(0, []), (1, ['n', 'a', 'm', 'e']), (2, []), (3, ['l', 'a', 'b', 'e', 'l', 's']),
       (4, ['v', 'a', 'l', 'u', 'e'])] := by
  decide

theorem decodeSample_unmatched (line : GoString) (h : FindStringSubmatch line = []) :
    decodeSample line = .error (.panic (.indexOutOfRange 1 0)) := by
  simp [decodeSample, h, SubexpNames_enum, fillSubMatchMap]

theorem decodeSample_matched (line name block labels value : GoString)
    (h : FindStringSubmatch line = [line, name, block, labels, value]) (hname : name ≠ []) :
    decodeSample line =
      match ParseFloat value with
      | .error err => .error (.ret err)
      | .ok v =>
        if labels = [] then .ok (name, v, [])
        else
          match labelPairs (Split labels ',') [] with
          | .error p => .error (.panic p)
          | .ok l => .ok (name, v, l) := by
  have e1 : "name".toList = ['n', 'a', 'm', 'e'] := rfl
  have e2 : "labels".toList = ['l', 'a', 'b', 'e', 'l', 's'] := rfl
  have e3 : "value".toList = ['v', 'a', 'l', 'u', 'e'] := rfl
  obtain ⟨n0, ns, rfl⟩ := List.exists_cons_of_ne_nil hname
  unfold decodeSample
  simp only [h, SubexpNames_enum, e1, e2, e3]
  cases labels with
  | nil =>
    cases value with
    | nil =>
      simp [fillSubMatchMap, mapAssign, mapLookup, List.lookup]
    | cons v0 vs =>
      simp [fillSubMatchMap, mapAssign, mapLookup, List.lookup]
  | cons l0 ls =>
    cases value with
    | nil =>
      simp [fillSubMatchMap, mapAssign, mapLookup, List.lookup]
    | cons v0 vs =>
      simp [fillSubMatchMap, mapAssign, mapLookup, List.lookup]

theorem decodeSample_ok (line N : GoString) (v : Float64) (l : GoMap GoString)
    (h : decodeSample line = .ok (N, v, l)) :
    ∃ c cs, line = c :: cs ∧ isNameStart c = true ∧ N = c :: cs.takeWhile isNameChar := by
  rcases FindStringSubmatch_cases line with h0 | ⟨c, cs, block, labels, value, hl, hc, hm⟩
  · rw [decodeSample_unmatched line h0] at h
    simp at h
  · refine ⟨c, cs, hl, hc, ?_⟩
    rw [decodeSample_matched line _ block labels value hm (List.cons_ne_nil _ _)] at h
    split at h
    · simp at h
    · split at h
      · simp only [Except.ok.injEq, Prod.mk.injEq] at h
        exact h.1.symm
      · split at h
        · simp at h
        · simp only [Except.ok.injEq, Prod.mk.injEq] at h
          exact h.1.symm

/-- An error that the decoding of a line returns is an error of `strconv.ParseFloat`: the
return of the format error is never reached. -/
theorem decodeSample_ret (line : GoString) (e : GoError)
    (h : decodeSample line = .error (.ret e)) :
    ∃ token, ParseFloat token = .error e := by
  rcases FindStringSubmatch_cases line with h0 | ⟨c, cs, block, labels, value, _, _, hm⟩
  · rw [decodeSample_unmatched line h0] at h
    simp at h
  · rw [decodeSample_matched line _ block labels value hm (List.cons_ne_nil _ _)] at h
    refine ⟨value, ?_⟩
    split at h
    · next err he =>
      simp only [Except.error.injEq, Abort.ret.injEq] at h
      rw [he, h]
    · split at h
      · simp at h
      · split at h <;> simp at h

theorem readLine_ret (p : Pending) (line : GoString) (e : GoError)
    (h : readLine p line = .ret e) : decodeSample line = .error (.ret e) := by
  unfold readLine at h
  split at h
  · simp at h
  · split at h
    · simp at h
    · split at h
      · simp at h
      · split at h
        · next err he => simp only [LineResult.ret.injEq] at h; rw [he, h]
        · simp at h
        · simp at h

theorem scanEnd_ret (lines : List GoString) :
    ∀ (p : Pending) (e : GoError), scanEnd p lines = some (.ret e) →
      ∃ pre line post, lines = pre ++ line :: post ∧ scanEnd p pre = none ∧
        samplesFrom p pre = samplesFrom p lines ∧ decodeSample line = .error (.ret e) := by
  induction lines with
  | nil => intro p e h; simp [scanEnd] at h
  | cons l rest ih =>
    intro p e h
    cases hl : readLine p l with
    | skip p' =>
      simp only [scanEnd, hl] at h
      obtain ⟨pre, line, post, h1, h2, h3, h4⟩ := ih p' e h
      exact ⟨l :: pre, line, post, by simp [h1], by simp [scanEnd, hl, h2],
        by simp [samplesFrom, hl, h3], h4⟩
    | sample s =>
      simp only [scanEnd, hl] at h
      obtain ⟨pre, line, post, h1, h2, h3, h4⟩ := ih s.pending e h
      exact ⟨l :: pre, line, post, by simp [h1], by simp [scanEnd, hl, h2],
        by simp [samplesFrom, hl, h3], h4⟩
    | ret err =>
      simp only [scanEnd, hl, Option.some.injEq, Abort.ret.injEq] at h
      subst h
      exact ⟨[], l, rest, rfl, rfl, by simp [samplesFrom, hl], readLine_ret p l err hl⟩
    | panic q => simp [scanEnd, hl] at h

/-! ## `Do` on a response -/

theorem Do_response (d : HttpTransport) (c : Client) (status : Int) (body : GoString)
    (hend : c.endpoint ≠ [])
    (hresp : (c.httpClient.getD d) c.endpoint = .response status body) :
    c.Do d = scanLoop c status Pending.init Acc.init (scanLines body) := by
  unfold Client.Do
  have : c.endpoint.isEmpty = false := by
    cases h : c.endpoint with
    | nil => exact absurd h hend
    | cons a l => rfl
  simp [this, hresp]

/-- C2, as amended: when `Do` returns a non-nil `Err` raised while parsing the body, the
`Result` carries the records gathered from the lines before the offending line: the scanned
lines split into the lines before, the line whose decoding returned the error (an error of
`strconv.ParseFloat`) and the lines after, and `Result.Metric` is the record list that the
loop of `Do` yields, without error, for the lines before alone. -/
theorem Do_parse_error_keeps_records (d : HttpTransport) (c : Client) (status : Int)
    (body : GoString) (r : Result) (e : GoError)
    (hend : c.endpoint ≠ [])
    (hresp : (c.httpClient.getD d) c.endpoint = .response status body)
    (hdo : c.Do d = .ok r) (herr : r.Err = some e) :
    ∃ pre line post, scanLines body = pre ++ line :: post ∧
      decodeSample line = .error (.ret e) ∧
      (∃ token, ParseFloat token = .error e) ∧
      scanLoop c status Pending.init Acc.init pre =
        .ok { ResponseStatus := status, Err := none, Metric := r.Metric } := by
  rw [Do_response d c status body hend hresp, scanLoop_eq] at hdo
  cases hg : groupFrom Acc.init
      ((samplesFrom Pending.init (scanLines body)).filter (admitted c)) with
  | error q => simp [hg] at hdo
  | ok acc' =>
    simp only [hg] at hdo
    cases hs : scanEnd Pending.init (scanLines body) with
    | none =>
      simp only [hs, Except.ok.injEq] at hdo
      subst hdo
      simp at herr
    | some a =>
      cases a with
      | panic q => simp [hs] at hdo
      | ret err =>
        simp only [hs, Except.ok.injEq] at hdo
        subst hdo
        simp only [Option.some.injEq] at herr
        subst herr
        obtain ⟨pre, line, post, h1, h2, h3, h4⟩ := scanEnd_ret _ _ _ hs
        refine ⟨pre, line, post, h1, h4, decodeSample_ret line err h4, ?_⟩
        rw [scanLoop_eq, h3, hg]
        simp [h2]

/-- C2, as amended, on the body `a 1`, `b .`. -/
theorem Do_parse_error_keeps_records_witness :
    ∃ pre line post, scanLines "a 1\nb .".toList = pre ++ line :: post ∧
      decodeSample line = .error (.ret (.syntaxError ['.'])) ∧
      (∃ token, ParseFloat token = .error (.syntaxError ['.'])) ∧
      scanLoop (NewClient.Endpoint exampleEndpoint) 200 Pending.init Acc.init pre =
        .ok { ResponseStatus := 200, Err := none,
              Metric := [{ Name := ['a'], Help := [], Typ := UnknownType, TypeRaw := [],
                           Values := [{ Label := [],
                                        Value := { neg := false, mant := 1, exp := 0 } }] }] } :=
  Do_parse_error_keeps_records (serve 200 "a 1\nb .".toList) (NewClient.Endpoint exampleEndpoint)
    200 "a 1\nb .".toList
    { ResponseStatus := 200, Err := some (.syntaxError ['.']),
      Metric := [{ Name := ['a'], Help := [], Typ := UnknownType, TypeRaw := [],
                   Values := [{ Label := [], Value := { neg := false, mant := 1, exp := 0 } }] }] }
    (.syntaxError ['.']) (by decide) (by rfl)
    (by set_option maxRecDepth 100000 in decide) (by rfl)
/-! ## The samples and the sample lines -/

theorem readLine_skip_iff (p : Pending) (line : GoString) :
    (∃ p', readLine p line = .skip p') ↔ isSkipped line = true := by
  unfold readLine isSkipped
  by_cases h1 : (TrimSpace line).length = 0
  · simp [h1]
  · by_cases h2 : HasPrefix line helpMarker = true
    · simp [h1, h2]
    · by_cases h3 : HasPrefix line typeMarker = true
      · simp [h1, h2, h3]
      · simp only [h1, h2, h3, if_false]
        cases decodeSample line with
        | error a => cases a <;> simp
        | ok t => simp

theorem readLine_sample (p : Pending) (line : GoString) (s : Sample)
    (h : readLine p line = .sample s) :
    isSkipped line = false ∧ decodeSample line = .ok (s.metricName, s.value, s.labels) ∧
      s.pending = resolve p s.metricName := by
  have hs : isSkipped line = false := by
    cases hk : isSkipped line with
    | false => rfl
    | true =>
      obtain ⟨p', hp⟩ := (readLine_skip_iff p line).2 hk
      rw [hp] at h; simp at h
  refine ⟨hs, ?_⟩
  unfold readLine at h
  split at h
  · simp at h
  · split at h
    · simp at h
    · split at h
      · simp at h
      · split at h
        · simp at h
        · simp at h
        · next metricName value labels hd =>
          simp only [LineResult.sample.injEq] at h
          subst h
          exact ⟨hd, rfl⟩

theorem samplesFrom_eq_filterMap (lines : List GoString) :
    ∀ (p : Pending), scanEnd p lines = none →
      (samplesFrom p lines).map (fun s => (s.metricName, s.value, s.labels)) =
        lines.filterMap fun line =>
          if isSkipped line then none else (decodeSample line).toOption := by
  induction lines with
  | nil => intro p _; rfl
  | cons l rest ih =>
    intro p h
    cases hl : readLine p l with
    | skip p' =>
      have hk := (readLine_skip_iff p l).1 ⟨p', hl⟩
      simp only [scanEnd, hl] at h
      simp [samplesFrom, hl, hk, ih p' h]
    | sample s =>
      obtain ⟨hk, hd, _⟩ := readLine_sample p l s hl
      simp only [scanEnd, hl] at h
      simp [samplesFrom, hl, hk, hd, ih s.pending h, Except.toOption]
    | ret err => simp [scanEnd, hl] at h
    | panic q => simp [scanEnd, hl] at h

theorem samplesFrom_resolved (lines : List GoString) :
    ∀ (p : Pending), ∀ s ∈ samplesFrom p lines,
      (s.pending.lastTypeRaw = [] ∧ s.pending.lastType = UnknownType) ∨
        HasPrefix s.pending.lastTypeRaw s.metricName = true := by
  induction lines with
  | nil => intro p s hs; simp [samplesFrom] at hs
  | cons l rest ih =>
    intro p s hs
    cases hl : readLine p l with
    | skip p' => simp only [samplesFrom, hl] at hs; exact ih p' s hs
    | ret err => simp [samplesFrom, hl] at hs
    | panic q => simp [samplesFrom, hl] at hs
    | sample t =>
      simp only [samplesFrom, hl, List.mem_cons] at hs
      rcases hs with rfl | hs
      · obtain ⟨_, _, hr⟩ := readLine_sample p l s hl
        rw [hr]
        unfold resolve
        by_cases hp : HasPrefix p.lastTypeRaw s.metricName = true
        · simp [hp]
        · simp [hp]
      · exact ih t.pending s hs

/-- What `Do` returns without error on a response: the end of the lines was reached, and the
records are the grouping of the admitted samples. -/
theorem Do_ok_none (d : HttpTransport) (c : Client) (status : Int) (body : GoString)
    (r : Result) (hend : c.endpoint ≠ [])
    (hresp : (c.httpClient.getD d) c.endpoint = .response status body)
    (hdo : c.Do d = .ok r) (herr : r.Err = none) :
    scanEnd Pending.init (scanLines body) = none ∧
    ∃ acc', groupFrom Acc.init ((samples body).filter (admitted c)) = .ok acc' ∧
      r = { ResponseStatus := status, Err := none, Metric := acc'.Metric } := by
  rw [Do_response d c status body hend hresp, scanLoop_eq] at hdo
  unfold samples
  cases hg : groupFrom Acc.init
      ((samplesFrom Pending.init (scanLines body)).filter (admitted c)) with
  | error q => simp [hg] at hdo
  | ok acc' =>
    simp only [hg] at hdo
    cases hs : scanEnd Pending.init (scanLines body) with
    | none =>
      simp only [hs, Except.ok.injEq] at hdo
      exact ⟨rfl, acc', rfl, hdo.symm⟩
    | some a =>
      cases a with
      | panic q => simp [hs] at hdo
      | ret err =>
        simp only [hs, Except.ok.injEq] at hdo
        subst hdo
        simp at herr

theorem decodedLines_eq (body : GoString) (h : scanEnd Pending.init (scanLines body) = none) :
    decodedLines body = (samples body).map (fun s => (s.metricName, s.value, s.labels)) :=
  (samplesFrom_eq_filterMap (scanLines body) Pending.init h).symm

theorem allPairs_Do (d : HttpTransport) (c : Client) (status : Int) (body : GoString)
    (r : Result) (hend : c.endpoint ≠ [])
    (hresp : (c.httpClient.getD d) c.endpoint = .response status body)
    (hdo : c.Do d = .ok r) (herr : r.Err = none) :
    allPairs r.Metric = ((samples body).filter (admitted c)).map Sample.pair := by
  obtain ⟨_, acc', hg, rfl⟩ := Do_ok_none d c status body r hend hresp hdo herr
  simpa [Acc.init, allPairs] using groupFrom_allPairs _ _ _ hg

theorem heading_Do (Q : GoString → MetricType → Prop) (d : HttpTransport) (c : Client)
    (status : Int) (body : GoString)
    (r : Result) (hend : c.endpoint ≠ [])
    (hresp : (c.httpClient.getD d) c.endpoint = .response status body)
    (hdo : c.Do d = .ok r) (herr : r.Err = none)
    (hQ : ∀ s, admitted c s = true → Q s.metricName s.pending.lastType) :
    ∀ m ∈ r.Metric, Q m.Name m.Typ := by
  obtain ⟨_, acc', hg, rfl⟩ := Do_ok_none d c status body r hend hresp hdo herr
  refine groupFrom_heading Q _ _ _ hg (by simp [Acc.init]) ?_
  intro s hs
  exact hQ s (List.mem_filter.1 hs).2
/-! ## The filters -/

theorem matchSet_iff (labels : GoMap GoString) (filterSet : GoMap (List GoString)) :
    matchSet labels filterSet = true ↔ matchesFilterSet labels filterSet := by
  unfold matchSet matchesFilterSet
  rw [List.all_eq_true]
  constructor
  · intro h entry he
    have := h entry he
    cases hl : mapLookup labels entry.1 with
    | none => simp [hl] at this
    | some v =>
      simp only [hl] at this
      exact ⟨v, by simpa using this, rfl⟩
  · intro h entry he
    obtain ⟨v, hv, hl⟩ := h entry he
    simp only [hl]
    simpa using hv

theorem admitted_label_only (c : Client) (s : Sample)
    (hname : sliceList c.nameFilter = []) (htype : sliceList c.typeFilter = [])
    (hlabel : sliceList c.labelFilter ≠ []) :
    admitted c s = decide (matchesAnyFilterSet s.labels (sliceList c.labelFilter)) := by
  have hpos : (sliceList c.labelFilter).length > 0 := List.length_pos.2 hlabel
  unfold admitted matchesAnyFilterSet
  simp only [hname, htype, List.length_nil, gt_iff_lt, lt_self_iff_false, false_and, if_false,
    hpos, if_true]
  rw [Bool.eq_iff_iff]
  simp only [List.any_eq_true, decide_eq_true_eq, matchSet_iff]

theorem admitted_name_only (c : Client) (s : Sample)
    (hname : sliceList c.nameFilter ≠ []) (htype : sliceList c.typeFilter = [])
    (hlabel : sliceList c.labelFilter = []) :
    admitted c s = decide (s.metricName ∈ sliceList c.nameFilter) := by
  have hpos : (sliceList c.nameFilter).length > 0 := List.length_pos.2 hname
  unfold admitted
  simp only [hlabel, htype, List.length_nil, gt_iff_lt, lt_self_iff_false, false_and, if_false,
    hpos, true_and]
  by_cases hm : s.metricName ∈ sliceList c.nameFilter
  · simp [hm]
  · simp [hm]

theorem admitted_type_only (c : Client) (s : Sample)
    (hname : sliceList c.nameFilter = []) (htype : sliceList c.typeFilter ≠ [])
    (hlabel : sliceList c.labelFilter = []) :
    admitted c s = decide (s.pending.lastType ∈ sliceList c.typeFilter) := by
  have hpos : (sliceList c.typeFilter).length > 0 := List.length_pos.2 htype
  unfold admitted
  simp only [hlabel, hname, List.length_nil, gt_iff_lt, lt_self_iff_false, false_and, if_false,
    hpos, true_and]
  by_cases hm : s.pending.lastType ∈ sliceList c.typeFilter
  · simp [hm]
  · simp [hm]

/-- C5: for a body parsed without error and a non-empty sequence of label filter sets, the
name and type filters being empty, the (labels, value) pairs of the result are, in order,
those of the sample lines for which there is at least one filter set such that, for every key
of the set, the sample has that label key and its value is one of the accepted values; when
one of the filter sets is the empty map, every sample line is in the result. -/
theorem Do_label_filter (d : HttpTransport) (c : Client) (status : Int) (body : GoString)
    (r : Result) (hend : c.endpoint ≠ [])
    (hresp : (c.httpClient.getD d) c.endpoint = .response status body)
    (hname : sliceList c.nameFilter = []) (htype : sliceList c.typeFilter = [])
    (hlabel : sliceList c.labelFilter ≠ [])
    (hdo : c.Do d = .ok r) (herr : r.Err = none) :
    allPairs r.Metric =
      ((decodedLines body).filter fun t =>
        decide (matchesAnyFilterSet t.2.2 (sliceList c.labelFilter))).map
        (fun t => { Label := t.2.2, Value := t.2.1 }) ∧
    ([] ∈ sliceList c.labelFilter →
      allPairs r.Metric =
        (decodedLines body).map (fun t => { Label := t.2.2, Value := t.2.1 })) := by
  have hend' := (Do_ok_none d c status body r hend hresp hdo herr).1
  have hp := allPairs_Do d c status body r hend hresp hdo herr
  have hfilter : (samples body).filter (admitted c) =
      (samples body).filter fun s =>
        decide (matchesAnyFilterSet s.labels (sliceList c.labelFilter)) :=
    List.filter_congr fun s _ => admitted_label_only c s hname htype hlabel
  have h1 : allPairs r.Metric =
      ((decodedLines body).filter fun t =>
        decide (matchesAnyFilterSet t.2.2 (sliceList c.labelFilter))).map
        (fun t => { Label := t.2.2, Value := t.2.1 }) := by
    rw [hp, hfilter, decodedLines_eq body hend', List.filter_map, List.map_map]
    rfl
  refine ⟨h1, fun hmem => ?_⟩
  rw [h1]
  congr 1
  apply List.filter_eq_self.2
  intro t _
  exact decide_eq_true ⟨[], hmem, fun entry he => absurd he (List.not_mem_nil _)⟩

/-- C6: for a body parsed without error and a non-empty name filter, the type and label
filters being empty, every record of the result has a `Name` that is a member of the name
filter, and the (labels, value) pairs of the result are, in order, those of the sample lines
whose metric name is a member of the name filter. -/
theorem Do_name_filter (d : HttpTransport) (c : Client) (status : Int) (body : GoString)
    (r : Result) (hend : c.endpoint ≠ [])
    (hresp : (c.httpClient.getD d) c.endpoint = .response status body)
    (hname : sliceList c.nameFilter ≠ []) (htype : sliceList c.typeFilter = [])
    (hlabel : sliceList c.labelFilter = [])
    (hdo : c.Do d = .ok r) (herr : r.Err = none) :
    (∀ m ∈ r.Metric, m.Name ∈ sliceList c.nameFilter) ∧
    allPairs r.Metric =
      ((decodedLines body).filter fun t => decide (t.1 ∈ sliceList c.nameFilter)).map
        (fun t => { Label := t.2.2, Value := t.2.1 }) := by
  have hend' := (Do_ok_none d c status body r hend hresp hdo herr).1
  have hp := allPairs_Do d c status body r hend hresp hdo herr
  have hfilter : (samples body).filter (admitted c) =
      (samples body).filter fun s => decide (s.metricName ∈ sliceList c.nameFilter) :=
    List.filter_congr fun s _ => admitted_name_only c s hname htype hlabel
  constructor
  · refine heading_Do (fun n _ => n ∈ sliceList c.nameFilter) d c status body r hend hresp
      hdo herr ?_
    intro s hs
    rw [admitted_name_only c s hname htype hlabel] at hs
    exact of_decide_eq_true hs
  · rw [hp, hfilter, decodedLines_eq body hend', List.filter_map, List.map_map]
    rfl

/-- The type filter as the code applies it: for a body parsed without error and a non-empty
type filter, the name and label filters being empty, every record of the result has a `Type`
that is a member of the type filter, and the (labels, value) pairs of the result are, in
order, those of the samples whose pending type, after lines 175-181 have compared the pending
metadata with the name, is a member of the type filter. That pending type is UNKNOWN, with an
empty type text, unless the pending type text starts with the name of the sample; it is the
type of another metric when that metric's type text starts with the name. -/
theorem Do_type_filter (d : HttpTransport) (c : Client) (status : Int) (body : GoString)
    (r : Result) (hend : c.endpoint ≠ [])
    (hresp : (c.httpClient.getD d) c.endpoint = .response status body)
    (hname : sliceList c.nameFilter = []) (htype : sliceList c.typeFilter ≠ [])
    (hlabel : sliceList c.labelFilter = [])
    (hdo : c.Do d = .ok r) (herr : r.Err = none) :
    (∀ m ∈ r.Metric, m.Typ ∈ sliceList c.typeFilter) ∧
    allPairs r.Metric =
      ((samples body).filter fun s => decide (s.pending.lastType ∈ sliceList c.typeFilter)).map
        Sample.pair ∧
    (∀ s ∈ samples body,
      (s.pending.lastTypeRaw = [] ∧ s.pending.lastType = UnknownType) ∨
        HasPrefix s.pending.lastTypeRaw s.metricName = true) := by
  have hp := allPairs_Do d c status body r hend hresp hdo herr
  have hfilter : (samples body).filter (admitted c) =
      (samples body).filter fun s => decide (s.pending.lastType ∈ sliceList c.typeFilter) :=
    List.filter_congr fun s _ => admitted_type_only c s hname htype hlabel
  refine ⟨?_, ?_, samplesFrom_resolved _ _⟩
  · refine heading_Do (fun _ t => t ∈ sliceList c.typeFilter) d c status body r hend hresp
      hdo herr ?_
    intro s hs
    rw [admitted_type_only c s hname htype hlabel] at hs
    exact of_decide_eq_true hs
  · rw [hp, hfilter]
/-- C5 on the body `up{a="x"} 1`, `up{a="y"} 2` with the one filter set `a: [x]`. -/
theorem Do_label_filter_witness :
    ((NewClient.Endpoint exampleEndpoint).FilterByLabel
        (some [[(['a'], [['x']])]])).Do (serve 200 labelledBody) =
      .ok { ResponseStatus := 200, Err := none,
            Metric := [{ Name := ['u', 'p'], Help := [], Typ := UnknownType, TypeRaw := [],
                         Values := [{ Label := [(['a'], ['x'])],
                                      Value := { neg := false, mant := 1, exp := 0 } }] }] } ∧
    (allPairs [{ Name := ['u', 'p'], Help := [], Typ := UnknownType, TypeRaw := [],
                 Values := [{ Label := [(['a'], ['x'])],
                              Value := { neg := false, mant := 1, exp := 0 } }] }] =
      ((decodedLines labelledBody).filter fun t =>
        decide (matchesAnyFilterSet t.2.2 [[(['a'], [['x']])]])).map
        (fun t => { Label := t.2.2, Value := t.2.1 }) ∧
    ([] ∈ [[((['a'] : GoString), [(['x'] : GoString)])]] →
      allPairs [{ Name := ['u', 'p'], Help := [], Typ := UnknownType, TypeRaw := [],
                  Values := [{ Label := [(['a'], ['x'])],
                               Value := { neg := false, mant := 1, exp := 0 } }] }] =
        (decodedLines labelledBody).map
          (fun t => { Label := t.2.2, Value := t.2.1 }))) :=
  ⟨by set_option maxRecDepth 100000 in decide,
   Do_label_filter (serve 200 labelledBody)
    ((NewClient.Endpoint exampleEndpoint).FilterByLabel (some [[(['a'], [['x']])]]))
    200 labelledBody
    { ResponseStatus := 200, Err := none,
      Metric := [{ Name := ['u', 'p'], Help := [], Typ := UnknownType, TypeRaw := [],
                   Values := [{ Label := [(['a'], ['x'])],
                                Value := { neg := false, mant := 1, exp := 0 } }] }] }
    (by decide) (by rfl) (by decide) (by decide) (by decide)
    (by set_option maxRecDepth 100000 in decide) (by rfl)⟩

/-- C6 on the body `a 1`, `b 2`, `a 3` with the name filter `[a]`. -/
theorem Do_name_filter_witness :
    ((NewClient.Endpoint exampleEndpoint).FilterByName (some [['a']])).Do
        (serve 200 "a 1\nb 2\na 3".toList) =
      .ok { ResponseStatus := 200, Err := none,
            Metric := [{ Name := ['a'], Help := [], Typ := UnknownType, TypeRaw := [],
                         Values := [{ Label := [],
                                      Value := { neg := false, mant := 1, exp := 0 } },
                                    { Label := [],
                                      Value := { neg := false, mant := 3, exp := 0 } }] }] } ∧
    ((∀ m ∈ [({ Name := ['a'], Help := [], Typ := UnknownType, TypeRaw := [],
                Values := [{ Label := [], Value := { neg := false, mant := 1, exp := 0 } },
                           { Label := [], Value := { neg := false, mant := 3, exp := 0 } }] } :
                Metric)],
        m.Name ∈ [(['a'] : GoString)]) ∧
      allPairs [{ Name := ['a'], Help := [], Typ := UnknownType, TypeRaw := [],
                  Values := [{ Label := [], Value := { neg := false, mant := 1, exp := 0 } },
                             { Label := [], Value := { neg := false, mant := 3, exp := 0 } }] }] =
        ((decodedLines "a 1\nb 2\na 3".toList).filter fun t =>
          decide (t.1 ∈ [(['a'] : GoString)])).map
          (fun t => { Label := t.2.2, Value := t.2.1 })) :=
  ⟨by set_option maxRecDepth 100000 in decide,
   Do_name_filter (serve 200 "a 1\nb 2\na 3".toList)
    ((NewClient.Endpoint exampleEndpoint).FilterByName (some [['a']]))
    200 "a 1\nb 2\na 3".toList
    { ResponseStatus := 200, Err := none,
      Metric := [{ Name := ['a'], Help := [], Typ := UnknownType, TypeRaw := [],
                   Values := [{ Label := [], Value := { neg := false, mant := 1, exp := 0 } },
                              { Label := [], Value := { neg := false, mant := 3, exp := 0 } }] }] }
    (by decide) (by rfl) (by decide) (by decide) (by decide)
    (by set_option maxRecDepth 100000 in decide) (by rfl)⟩

/-- The type filter `[GAUGE]` on the body `# TYPE a gauge`, `a 1`, `b 2`. -/
theorem Do_type_filter_witness :
    ((NewClient.Endpoint exampleEndpoint).FilterByType (some [GaugeType])).Do
        (serve 200 "# TYPE a gauge\na 1\nb 2".toList) =
      .ok { ResponseStatus := 200, Err := none,
            Metric := [{ Name := ['a'], Help := [], Typ := GaugeType,
                         TypeRaw := ['g', 'a', 'u', 'g', 'e'],
                         Values := [{ Label := [],
                                      Value := { neg := false, mant := 1, exp := 0 } }] }] } ∧
    ((∀ m ∈ [({ Name := ['a'], Help := [], Typ := GaugeType,
                TypeRaw := ['g', 'a', 'u', 'g', 'e'],
                Values := [{ Label := [], Value := { neg := false, mant := 1, exp := 0 } }] } :
                Metric)],
        m.Typ ∈ [GaugeType]) ∧
      allPairs [{ Name := ['a'], Help := [], Typ := GaugeType,
                  TypeRaw := ['g', 'a', 'u', 'g', 'e'],
                  Values := [{ Label := [], Value := { neg := false, mant := 1, exp := 0 } }] }] =
        ((samples "# TYPE a gauge\na 1\nb 2".toList).filter fun s =>
          decide (s.pending.lastType ∈ [GaugeType])).map Sample.pair ∧
      (∀ s ∈ samples "# TYPE a gauge\na 1\nb 2".toList,
        (s.pending.lastTypeRaw = [] ∧ s.pending.lastType = UnknownType) ∨
          HasPrefix s.pending.lastTypeRaw s.metricName = true)) :=
  ⟨by set_option maxRecDepth 100000 in decide,
   Do_type_filter (serve 200 "# TYPE a gauge\na 1\nb 2".toList)
    ((NewClient.Endpoint exampleEndpoint).FilterByType (some [GaugeType]))
    200 "# TYPE a gauge\na 1\nb 2".toList
    { ResponseStatus := 200, Err := none,
      Metric := [{ Name := ['a'], Help := [], Typ := GaugeType,
                   TypeRaw := ['g', 'a', 'u', 'g', 'e'],
                   Values := [{ Label := [], Value := { neg := false, mant := 1, exp := 0 } }] }] }
    (by decide) (by rfl) (by decide) (by decide) (by decide)
    (by set_option maxRecDepth 100000 in decide) (by rfl)⟩
/-! ## Strings: replacing, searching, splitting -/

theorem replaceScan_skip (old new : GoString) (xs s : GoString) :
    replaceScan old new xs.length (xs ++ s) = replaceScan old new 0 s := by
  induction xs with
  | nil => rfl
  | cons x xs ih => simpa [replaceScan] using ih

theorem replaceScan_occurrence (old new s : GoString) (h : old ≠ []) :
    replaceScan old new 0 (old ++ s) = new ++ replaceScan old new 0 s := by
  obtain ⟨o, os, rfl⟩ := List.exists_cons_of_ne_nil h
  have hp : (o :: os).isPrefixOf (o :: (os ++ s)) = true := by
    rw [ List.isPrefixOf_iff_prefix]
    exact ⟨s, rfl⟩
  show replaceScan (o :: os) new 0 (o :: (os ++ s)) = new ++ replaceScan (o :: os) new 0 s
  rw [replaceScan, if_pos hp]
  show new ++ replaceScan (o :: os) new os.length (os ++ s) = _
  rw [replaceScan_skip]

theorem replaceScan_of_not_contains (old new : GoString) :
    ∀ s : GoString, Contains s old = false → replaceScan old new 0 s = s := by
  intro s
  induction s with
  | nil => intro _; rfl
  | cons c cs ih =>
    intro h
    simp only [Contains, Bool.or_eq_false_iff] at h
    simp [replaceScan, h.1, ih h.2]

theorem ReplaceAll_leading (old s : GoString) (h : old ≠ [])
    (hs : Contains s old = false) : ReplaceAll (old ++ s) old [] = s := by
  obtain ⟨o, os, rfl⟩ := List.exists_cons_of_ne_nil h
  show replaceScan (o :: os) [] 0 (o :: os ++ s) = s
  rw [replaceScan_occurrence _ _ _ (List.cons_ne_nil _ _), replaceScan_of_not_contains _ _ _ hs]
  rfl

theorem Contains_append_of_not_mem (a : Char) (p ys : GoString) :
    ∀ xs : GoString, a ∉ xs → Contains ys (a :: p) = false →
      Contains (xs ++ ys) (a :: p) = false := by
  intro xs
  induction xs with
  | nil => intro _ h; simpa using h
  | cons x xs ih =>
    intro hx h
    simp only [List.mem_cons, not_or] at hx
    have hne : (a == x) = false := by simpa using hx.1
    simp only [List.cons_append, Contains, List.isPrefixOf, hne, Bool.false_and,
      Bool.false_or]
    exact ih hx.2 h

theorem HasPrefix_append (xs ys : GoString) : HasPrefix (xs ++ ys) xs = true := by
  unfold HasPrefix
  rw [ List.isPrefixOf_iff_prefix]
  exact ⟨ys, rfl⟩

theorem Split_append_sep (sep : Char) (rest : GoString) :
    ∀ l : GoString, sep ∉ l → Split (l ++ sep :: rest) sep = l :: Split rest sep := by
  intro l
  induction l with
  | nil => intro _; simp [Split]
  | cons x xs ih =>
    intro h
    simp only [List.mem_cons, not_or] at h
    have hx : ¬ x = sep := fun e => h.1 e.symm
    simp [Split, hx, ih h.2]

theorem Split_of_not_mem (sep : Char) :
    ∀ l : GoString, sep ∉ l → Split l sep = [l] := by
  intro l
  induction l with
  | nil => intro _; rfl
  | cons x xs ih =>
    intro h
    simp only [List.mem_cons, not_or] at h
    have hx : ¬ x = sep := fun e => h.1 e.symm
    simp [Split, hx, ih h.2]

theorem dropCR_of_not_mem (s : GoString) (h : '\r' ∉ s) : dropCR s = s := by
  unfold dropCR
  split
  · next hl => exact absurd (List.mem_of_getLast?_eq_some hl) h
  · rfl

theorem TrimSpace_ne_nil (c : Char) (cs : GoString) (hc : isSpace c = false) :
    (TrimSpace (c :: cs)).length ≠ 0 := by
  unfold TrimSpace
  have h1 : (c :: cs).dropWhile isSpace = c :: cs := by simp [List.dropWhile, hc]
  rw [h1]
  intro h
  have h2 := List.length_eq_zero.1 h
  rw [List.reverse_eq_nil_iff, List.dropWhile_eq_nil_iff] at h2
  have := h2 c (by simp)
  rw [hc] at this
  exact Bool.noConfusion this

/-! ## Characters of a metric name -/

theorem isNameChar_of_isNameStart (c : Char) (h : isNameStart c = true) :
    isNameChar c = true := by
  unfold isNameStart at h
  unfold isNameChar
  simp only [Bool.or_eq_true] at h ⊢
  rcases h with (h | h) | h
  · exact Or.inl (Or.inl (by simp [Char.isAlphanum, h]))
  · exact Or.inl (Or.inr h)
  · exact Or.inr h

theorem ne_of_isNameChar (a c : Char) (ha : isNameChar a = false) (hc : isNameChar c = true) :
    a ≠ c := by
  intro e
  rw [e, hc] at ha
  exact Bool.noConfusion ha

theorem not_mem_name (a c : Char) (cs : GoString) (ha : isNameChar a = false)
    (hc : isNameStart c = true) : a ∉ c :: cs.takeWhile isNameChar := by
  intro hm
  rcases List.mem_cons.1 hm with e | hm
  · exact ne_of_isNameChar a c ha (isNameChar_of_isNameStart c hc) e
  · exact ne_of_isNameChar a a ha (List.mem_takeWhile_imp hm) rfl
theorem isSpace_of_isNameStart (c : Char) (h : isNameStart c = true) : isSpace c = false := by
  unfold isNameStart at h
  simp only [Bool.or_eq_true, beq_iff_eq] at h
  rcases h with (h | h) | h
  · simp only [Char.isAlpha, Char.isUpper, Char.isLower, Bool.or_eq_true, Bool.and_eq_true,
      decide_eq_true_eq, ge_iff_le, UInt32.le_def, BitVec.le_def] at h
    unfold isSpace
    simp only [Char.toNat]
    have e : c.val.toBitVec.toNat = c.val.toNat := rfl
    have e65 : (UInt32.toBitVec 65).toNat = 65 := rfl
    have e90 : (UInt32.toBitVec 90).toNat = 90 := rfl
    have e97 : (UInt32.toBitVec 97).toNat = 97 := rfl
    have e122 : (UInt32.toBitVec 122).toNat = 122 := rfl
    rw [e, e65, e90, e97, e122] at h
    simp
    omega
  · subst h; decide
  · subst h; decide
/-! ## A help comment, a type comment and a sample -/

theorem scanLines_three (a b l : GoString) (ha : '\n' ∉ a) (hb : '\n' ∉ b) (hl : '\n' ∉ l)
    (hne : l ≠ [])
    (ra : '\r' ∉ a) (rb : '\r' ∉ b) (rl : '\r' ∉ l)
    (la : byteLen a < MaxScanTokenSize) (lb : byteLen b < MaxScanTokenSize)
    (ll : byteLen l < MaxScanTokenSize) :
    scanLines (a ++ '\n' :: (b ++ '\n' :: l)) = [a, b, l] := by
  unfold scanLines
  rw [Split_append_sep _ _ a ha, Split_append_sep _ _ b hb, Split_of_not_mem _ l hl]
  obtain ⟨x, xs, rfl⟩ := List.exists_cons_of_ne_nil hne
  simp [scanTokens, la, lb, ll, dropCR_of_not_mem _ ra, dropCR_of_not_mem _ rb,
    dropCR_of_not_mem _ rl]

theorem readLine_helpLine (p : Pending) (N H : GoString)
    (h : Contains (N ++ ' ' :: H) helpMarker = false) :
    readLine p (helpLine N H) = .skip { p with lastHelp := N ++ ' ' :: H } := by
  have h1 : (TrimSpace (helpLine N H)).length ≠ 0 :=
    TrimSpace_ne_nil '#' _ (by decide)
  have h2 : HasPrefix (helpLine N H) helpMarker = true := HasPrefix_append _ _
  have h3 : ReplaceAll (helpLine N H) helpMarker [] = N ++ ' ' :: H :=
    ReplaceAll_leading helpMarker _ (by decide) h
  simp only [readLine, h1, h2, h3, if_false, if_true]

theorem readLine_typeLine (p : Pending) (N T : GoString)
    (h : Contains (N ++ ' ' :: T) typeMarker = false) :
    ∃ typ, readLine p (typeLine N T) =
      .skip { lastHelp := p.lastHelp, lastTypeRaw := N ++ ' ' :: T, lastType := typ } := by
  have h1 : (TrimSpace (typeLine N T)).length ≠ 0 :=
    TrimSpace_ne_nil '#' _ (by decide)
  have h2 : HasPrefix (typeLine N T) helpMarker = false := by
    simp [HasPrefix, typeLine, typeMarker, helpMarker, List.isPrefixOf]
  have h3 : HasPrefix (typeLine N T) typeMarker = true := HasPrefix_append _ _
  have h4 : ReplaceAll (typeLine N T) typeMarker [] = N ++ ' ' :: T :=
    ReplaceAll_leading typeMarker _ (by decide) h
  refine ⟨(typeComment p (typeLine N T)).lastType, ?_⟩
  simp only [readLine, h1, h2, h3, if_false, if_true, Bool.false_eq_true]
  simp only [typeComment, h4]
theorem readLine_sampleLine (p : Pending) (line N : GoString) (value : Float64)
    (labels : GoMap GoString) (h : decodeSample line = .ok (N, value, labels)) :
    readLine p line =
      .sample { metricName := N, value := value, labels := labels, pending := resolve p N } := by
  obtain ⟨c, cs, rfl, hc, _⟩ := decodeSample_ok line N value labels h
  have h1 : (TrimSpace (c :: cs)).length ≠ 0 :=
    TrimSpace_ne_nil c cs (isSpace_of_isNameStart c hc)
  have hne : ¬ c = '#' := by
    intro e; subst e; revert hc; decide
  have h2 : HasPrefix (c :: cs) helpMarker = false := by
    simp [HasPrefix, helpMarker, List.isPrefixOf, Ne.symm hne]
  have h3 : HasPrefix (c :: cs) typeMarker = false := by
    simp [HasPrefix, typeMarker, List.isPrefixOf, Ne.symm hne]
  simp only [readLine, h1, h2, h3, h, if_false, Bool.false_eq_true]

/-- A help comment, a type comment and a sample whose texts leave the replacements of `Do`
without effect: let `N` be a metric name, `H` a help text and `T` a type token without
line breaks, in which neither the comment marker (`# HELP ` in `H`, `# TYPE ` in `T`) nor `N`
followed by a space occurs, and let `line` be a sample line for `N` without line breaks, that
`Do` decodes into the name `N`, a value and labels. Then the body of the three lines
`# HELP N H`, `# TYPE N T` and `line`, each shorter than the buffer of the scanner, parsed
with no filters, yields exactly one record, with `Name = N`, `Help = H`, `TypeRaw = T` and
the one pair of the sample; its `Type` is the pending type that the `# TYPE ` line leaves. -/
theorem Do_help_type_sample (d : HttpTransport) (c : Client) (status : Int)
    (N H T line : GoString) (value : Float64) (labels : GoMap GoString)
    (hend : c.endpoint ≠ [])
    (hresp : (c.httpClient.getD d) c.endpoint =
      .response status (helpLine N H ++ '\n' :: (typeLine N T ++ '\n' :: line)))
    (hname : sliceList c.nameFilter = []) (htype : sliceList c.typeFilter = [])
    (hlabel : sliceList c.labelFilter = [])
    (hline : decodeSample line = .ok (N, value, labels))
    (hH : '\n' ∉ H ∧ '\r' ∉ H) (hT : '\n' ∉ T ∧ '\r' ∉ T) (hL : '\n' ∉ line ∧ '\r' ∉ line)
    (hH1 : Contains H helpMarker = false) (hH2 : Contains H (N ++ [' ']) = false)
    (hT1 : Contains T typeMarker = false) (hT2 : Contains T (N ++ [' ']) = false)
    (lenH : byteLen (helpLine N H) < MaxScanTokenSize)
    (lenT : byteLen (typeLine N T) < MaxScanTokenSize)
    (lenL : byteLen line < MaxScanTokenSize) :
    c.Do d =
      .ok { ResponseStatus := status, Err := none,
            Metric := [{ Name := N, Help := H,
                         Typ := (typeComment Pending.init (typeLine N T)).lastType,
                         TypeRaw := T,
                         Values := [{ Label := labels, Value := value }] }] } := by
  obtain ⟨c0, cs, hl, hc0, hN⟩ := decodeSample_ok line N value labels hline
  have hNne : N ≠ [] := by rw [hN]; exact List.cons_ne_nil _ _
  have nm : ∀ a : Char, isNameChar a = false → a ∉ N := by
    intro a ha; rw [hN]; exact not_mem_name a c0 cs ha hc0
  have nmSp : ∀ a : Char, isNameChar a = false → a ≠ ' ' → a ∉ N ++ [' '] := by
    intro a ha hs hm
    rcases List.mem_append.1 hm with h | h
    · exact nm a ha h
    · exact hs (List.mem_singleton.1 h)
  have eH : N ++ ' ' :: H = (N ++ [' ']) ++ H := by simp
  have eT : N ++ ' ' :: T = (N ++ [' ']) ++ T := by simp
  have cH : Contains (N ++ ' ' :: H) helpMarker = false := by
    rw [eH]
    exact Contains_append_of_not_mem '#' _ _ _ (nmSp '#' (by decide) (by decide)) hH1
  have cT : Contains (N ++ ' ' :: T) typeMarker = false := by
    rw [eT]
    exact Contains_append_of_not_mem '#' _ _ _ (nmSp '#' (by decide) (by decide)) hT1
  have nlMarkerH : ∀ a : Char, a = '\n' ∨ a = '\r' → a ∉ helpMarker := by
    intro a ha; rcases ha with rfl | rfl <;> decide
  have nlMarkerT : ∀ a : Char, a = '\n' ∨ a = '\r' → a ∉ typeMarker := by
    intro a ha; rcases ha with rfl | rfl <;> decide
  have brH : ∀ a : Char, a = '\n' ∨ a = '\r' → a ∉ H → a ∉ helpLine N H := by
    intro a ha hh hm
    have hnc : isNameChar a = false := by rcases ha with rfl | rfl <;> decide
    have hsp : a ≠ ' ' := by rcases ha with rfl | rfl <;> decide
    unfold helpLine at hm
    rw [eH] at hm
    rcases List.mem_append.1 hm with h | h
    · exact nlMarkerH a ha h
    · rcases List.mem_append.1 h with h | h
      · exact nmSp a hnc hsp h
      · exact hh h
  have brT : ∀ a : Char, a = '\n' ∨ a = '\r' → a ∉ T → a ∉ typeLine N T := by
    intro a ha hh hm
    have hnc : isNameChar a = false := by rcases ha with rfl | rfl <;> decide
    have hsp : a ≠ ' ' := by rcases ha with rfl | rfl <;> decide
    unfold typeLine at hm
    rw [eT] at hm
    rcases List.mem_append.1 hm with h | h
    · exact nlMarkerT a ha h
    · rcases List.mem_append.1 h with h | h
      · exact nmSp a hnc hsp h
      · exact hh h
  have hlines : scanLines (helpLine N H ++ '\n' :: (typeLine N T ++ '\n' :: line)) =
      [helpLine N H, typeLine N T, line] :=
    scanLines_three _ _ _ (brH _ (Or.inl rfl) hH.1) (brT _ (Or.inl rfl) hT.1) hL.1
      (by rw [hl]; exact List.cons_ne_nil _ _)
      (brH _ (Or.inr rfl) hH.2) (brT _ (Or.inr rfl) hT.2) hL.2 lenH lenT lenL
  obtain ⟨typ, hty⟩ := readLine_typeLine { Pending.init with lastHelp := N ++ ' ' :: H } N T cT
  have htyp : typ = (typeComment Pending.init (typeLine N T)).lastType := by
    have h1 : (TrimSpace (typeLine N T)).length ≠ 0 := TrimSpace_ne_nil '#' _ (by decide)
    have h2 : HasPrefix (typeLine N T) helpMarker = false := by
      simp [HasPrefix, typeLine, typeMarker, helpMarker, List.isPrefixOf]
    have h3 : HasPrefix (typeLine N T) typeMarker = true := HasPrefix_append _ _
    simp only [readLine, h1, h2, h3, if_false, if_true, Bool.false_eq_true,
      LineResult.skip.injEq] at hty
    have := congrArg Pending.lastType hty
    simpa [typeComment, Pending.init] using this.symm
  have hres : resolve ⟨N ++ ' ' :: H, N ++ ' ' :: T, typ⟩ N =
      ⟨N ++ ' ' :: H, N ++ ' ' :: T, typ⟩ := by
    simp [resolve, HasPrefix_append]
  have hadm : ∀ s : Sample, admitted c s = true := by
    intro s; simp [admitted, hname, htype, hlabel]
  have hrH : ReplaceAll (N ++ ' ' :: H) (N ++ [' ']) [] = H := by
    rw [eH]; exact ReplaceAll_leading _ _ (by simp) hH2
  have hrT : ReplaceAll (N ++ ' ' :: T) (N ++ [' ']) [] = T := by
    rw [eT]; exact ReplaceAll_leading _ _ (by simp) hT2
  rw [Do_response d c status _ hend hresp, hlines]
  simp only [scanLoop, readLine_helpLine Pending.init N H cH, hty,
    readLine_sampleLine _ line N value labels hline, hres, hadm, if_true]
  have hacc : ([] : GoString) ≠ N := fun e => hNne e.symm
  simp [accumulate, Acc.init, hacc, hrH, hrT, htyp]
/-- The scenario of the spec: the lines
`# HELP go_goroutines Number of goroutines that currently exist.`, `# TYPE go_goroutines gauge`
and `go_goroutines 86` yield one record with that help text, the type GAUGE, the type text
`gauge` and one pair with empty labels. -/
theorem Do_help_type_sample_witness :
    (NewClient.Endpoint exampleEndpoint).Do
        (serve 200
          ("# HELP go_goroutines Number of goroutines that currently exist.\n" ++
            "# TYPE go_goroutines gauge\ngo_goroutines 86").toList) =
      .ok { ResponseStatus := 200, Err := none,
            Metric := [{ Name := "go_goroutines".toList,
                         Help := "Number of goroutines that currently exist.".toList,
                         Typ := GaugeType,
                         TypeRaw := "gauge".toList,
                         Values := [{ Label := [],
                                      Value := { neg := false, mant := 86, exp := 0 } }] }] } :=
  Do_help_type_sample
    (serve 200
      ("# HELP go_goroutines Number of goroutines that currently exist.\n" ++
        "# TYPE go_goroutines gauge\ngo_goroutines 86").toList)
    (NewClient.Endpoint exampleEndpoint) 200
    "go_goroutines".toList "Number of goroutines that currently exist.".toList "gauge".toList
    "go_goroutines 86".toList { neg := false, mant := 86, exp := 0 } []
    (by decide) (by rfl) (by decide) (by decide) (by decide)
    (by set_option maxRecDepth 100000 in decide)
    (by decide) (by decide) (by decide)
    (by set_option maxRecDepth 100000 in decide)
    (by set_option maxRecDepth 100000 in decide)
    (by set_option maxRecDepth 100000 in decide)
    (by set_option maxRecDepth 100000 in decide)
    (by set_option maxRecDepth 100000 in decide)
    (by set_option maxRecDepth 100000 in decide)
    (by set_option maxRecDepth 100000 in decide)

/-- C8 (the code departs from the claim): for `N = up`, `H = is up now` and `T = gauge` the
body `# HELP up is up now`, `# TYPE up gauge`, `up 1` yields a record whose `Help` is
`is now`, not `H`: `strings.ReplaceAll` removes every occurrence of `up ` from the pending
help text, where only the leading `N ` is to be stripped. -/
theorem Do_help_loses_name_occurrences :
    (NewClient.Endpoint exampleEndpoint).Do
        (serve 200 "# HELP up is up now\n# TYPE up gauge\nup 1".toList) =
      .ok { ResponseStatus := 200, Err := none,
            Metric := [{ Name := "up".toList, Help := "is now".toList, Typ := GaugeType,
                         TypeRaw := "gauge".toList,
                         Values := [{ Label := [],
                                      Value := { neg := false, mant := 1, exp := 0 } }] }] } ∧
    "is now".toList ≠ "is up now".toList := by
  set_option maxRecDepth 100000 in decide

/-- C9 (the code departs from the claim): in the body `# HELP ab x`, `# TYPE ab gauge`, `a 1`
the comments are about the metric `ab` and the sample is named `a`; the record of `a` has
`Help = "ab x"`, `Type = GAUGE` and `TypeRaw = "ab gauge"`, the metadata of `ab`, because
lines 175-181 keep pending metadata that starts with the name of the sample, and `ab x`
starts with `a`. -/
theorem Do_metadata_leaks_to_shorter_name :
    (NewClient.Endpoint exampleEndpoint).Do
        (serve 200 "# HELP ab x\n# TYPE ab gauge\na 1".toList) =
      .ok { ResponseStatus := 200, Err := none,
            Metric := [{ Name := "a".toList, Help := "ab x".toList, Typ := GaugeType,
                         TypeRaw := "ab gauge".toList,
                         Values := [{ Label := [],
                                      Value := { neg := false, mant := 1, exp := 0 } }] }] } := by
  set_option maxRecDepth 100000 in decide

/-- C7 (the code departs from the claim): in the body `# TYPE ab gauge`, `a 1` the sample `a`
has no TYPE comment of its own, the one comment being about the metric `ab`, so that its
effective type is UNKNOWN. With the type filter `[GAUGE]` the code admits it, in a record of
type GAUGE, and with the type filter `[UNKNOWN]` the code drops it: lines 175-181 keep the
pending type of `ab`, whose type text starts with `a`, and the filter tests that type. -/
theorem Do_type_filter_admits_leaked_type :
    ((NewClient.Endpoint exampleEndpoint).FilterByType (some [GaugeType])).Do
        (serve 200 "# TYPE ab gauge\na 1".toList) =
      .ok { ResponseStatus := 200, Err := none,
            Metric := [{ Name := "a".toList, Help := [], Typ := GaugeType,
                         TypeRaw := "ab gauge".toList,
                         Values := [{ Label := [],
                                      Value := { neg := false, mant := 1, exp := 0 } }] }] } ∧
    ((NewClient.Endpoint exampleEndpoint).FilterByType (some [UnknownType])).Do
        (serve 200 "# TYPE ab gauge\na 1".toList) =
      .ok { ResponseStatus := 200, Err := none, Metric := [] } := by
  set_option maxRecDepth 100000 in decide

/-- C10 (the code departs from the claim): in the body `# TYPE a gauge`, `# TYPE b untyped`,
`b 1` the upper-cased second line contains none of the four tags, and the pending type after
it is still GAUGE, the type of the first line: a `# TYPE ` line assigns `lastType` only when
a tag is found. The record of `b` has `Type = GAUGE`, with `TypeRaw = "untyped"`. -/
theorem Do_type_comment_without_tag_keeps_type :
    (typeComment (typeComment Pending.init "# TYPE a gauge".toList)
        "# TYPE b untyped".toList).lastType = GaugeType ∧
    (NewClient.Endpoint exampleEndpoint).Do
        (serve 200 "# TYPE a gauge\n# TYPE b untyped\nb 1".toList) =
      .ok { ResponseStatus := 200, Err := none,
            Metric := [{ Name := "b".toList, Help := [], Typ := GaugeType,
                         TypeRaw := "untyped".toList,
                         Values := [{ Label := [],
                                      Value := { neg := false, mant := 1, exp := 0 } }] }] } := by
  set_option maxRecDepth 100000 in decide

/-! ## The range of `float64` -/

theorem overflowThreshold_eq : overflowThreshold = 2 ^ 1024 - 2 ^ 970 := by
  unfold overflowThreshold; norm_num

/-! ## The two departures in general form -/

/-- A line that is not passed over and that the pattern does not match ends `Do` in a panic,
whatever the pending metadata. -/
theorem readLine_unmatched (p : Pending) (line : GoString) (hs : isSkipped line = false)
    (hm : FindStringSubmatch line = []) :
    readLine p line = .panic (.indexOutOfRange 1 0) := by
  unfold isSkipped at hs
  simp only [Bool.or_eq_false_iff, decide_eq_false_iff_not] at hs
  simp only [readLine, hs.1.1, hs.1.2, hs.2, decodeSample_unmatched line hm, if_false,
    Bool.false_eq_true]

/-- A type comment in whose upper-cased text no tag occurs leaves the pending type as it
was. -/
theorem typeComment_without_tag (p : Pending) (line : GoString)
    (h1 : Contains (ToUpper line) CounterType = false)
    (h2 : Contains (ToUpper line) GaugeType = false)
    (h3 : Contains (ToUpper line) HistogramType = false)
    (h4 : Contains (ToUpper line) SummaryType = false) :
    (typeComment p line).lastType = p.lastType := by
  simp [typeComment, h1, h2, h3, h4]

/-! ## Type comments -/

/-- C11 (the code departs from the claim): for the body `# TYPE job_summary counter`,
`job_summary 1` the declared type token `counter` matches the one tag COUNTER, and the record
gets `Type = SUMMARY` with `TypeRaw = "counter"`: `Do` searches the tags in the whole
upper-cased line, the metric name included, and SUMMARY, found in the name, is tested last. -/
theorem Do_type_taken_from_metric_name :
    (NewClient.Endpoint exampleEndpoint).Do
        (serve 200 "# TYPE job_summary counter\njob_summary 1".toList) =
      .ok { ResponseStatus := 200, Err := none,
            Metric := [{ Name := "job_summary".toList, Help := [], Typ := SummaryType,
                         TypeRaw := "counter".toList,
                         Values := [{ Label := [],
                                      Value := { neg := false, mant := 1, exp := 0 } }] }] } ∧
    matchingTags (ToUpper "counter".toList) = [CounterType] := by
  set_option maxRecDepth 100000 in decide

theorem readLine_typeMarker (p : Pending) (line : GoString)
    (h : HasPrefix line typeMarker = true) :
    readLine p line = .skip (typeComment p line) := by
  unfold HasPrefix at h
  rw [ List.isPrefixOf_iff_prefix] at h
  obtain ⟨rest, rfl⟩ := h
  have h1 : (TrimSpace (typeMarker ++ rest)).length ≠ 0 :=
    TrimSpace_ne_nil '#' _ (by decide)
  have h2 : HasPrefix (typeMarker ++ rest) helpMarker = false := by
    simp [HasPrefix, typeMarker, helpMarker, List.isPrefixOf]
  have h3 : HasPrefix (typeMarker ++ rest) typeMarker = true := HasPrefix_append _ _
  simp only [readLine, h1, h2, h3, if_false, if_true, Bool.false_eq_true]

/-- C17: a `# TYPE ` line in whose upper-cased text more than one of the tokens COUNTER,
GAUGE, HISTOGRAM, SUMMARY occurs is passed over as a type comment, and the pending type after
it is the matching tag that comes last in the fixed order COUNTER, GAUGE, HISTOGRAM, SUMMARY,
wherever the tokens stand in the line and whatever the pending type was. -/
theorem typeComment_last_matching_tag (p : Pending) (line : GoString)
    (hline : HasPrefix line typeMarker = true)
    (hmany : 1 < (matchingTags (ToUpper line)).length) :
    readLine p line = .skip (typeComment p line) ∧
    (matchingTags (ToUpper line)).getLast? = some (typeComment p line).lastType := by
  refine ⟨readLine_typeMarker p line hline, ?_⟩
  unfold matchingTags knownTags at hmany ⊢
  unfold typeComment
  cases h1 : Contains (ToUpper line) CounterType <;>
  cases h2 : Contains (ToUpper line) GaugeType <;>
  cases h3 : Contains (ToUpper line) HistogramType <;>
  cases h4 : Contains (ToUpper line) SummaryType <;>
  simp [List.filter, h1, h2, h3, h4] at hmany ⊢

/-- C17 on the line `# TYPE job_summary counter`, with GAUGE pending: COUNTER and SUMMARY
occur, and the pending type becomes SUMMARY. -/
theorem typeComment_last_matching_tag_witness :
    1 < (matchingTags (ToUpper "# TYPE job_summary counter".toList)).length ∧
    readLine { lastHelp := [], lastTypeRaw := [], lastType := GaugeType }
        "# TYPE job_summary counter".toList =
      .skip (typeComment { lastHelp := [], lastTypeRaw := [], lastType := GaugeType }
        "# TYPE job_summary counter".toList) ∧
    (matchingTags (ToUpper "# TYPE job_summary counter".toList)).getLast? =
      some (typeComment { lastHelp := [], lastTypeRaw := [], lastType := GaugeType }
        "# TYPE job_summary counter".toList).lastType :=
  ⟨by decide,
   typeComment_last_matching_tag { lastHelp := [], lastTypeRaw := [], lastType := GaugeType }
    "# TYPE job_summary counter".toList (by decide) (by decide)⟩

/-! ## A client without endpoint -/

/-- C15: on a client whose endpoint is the empty string, as it is when none was configured,
`Do` returns `Err = ErrEndpointMissing`, no records and the response status 0, whatever the
filters and whatever HTTP client is at hand: no request is made. -/
theorem Do_without_endpoint (d : HttpTransport) (c : Client) (h : c.endpoint = []) :
    c.Do d = .ok { ResponseStatus := 0, Err := some .ErrEndpointMissing, Metric := [] } := by
  simp [Client.Do, h]

/-- C15 on a fresh client with a name, a type and a label filter. -/
theorem Do_without_endpoint_witness :
    (((NewClient.FilterByName (some [['a']])).FilterByType (some [GaugeType])).FilterByLabel
        (some [[(['k'], [['v']])]])).endpoint = [] ∧
    (((NewClient.FilterByName (some [['a']])).FilterByType (some [GaugeType])).FilterByLabel
        (some [[(['k'], [['v']])]])).Do (serve 200 "a 1".toList) =
      .ok { ResponseStatus := 0, Err := some .ErrEndpointMissing, Metric := [] } :=
  ⟨by decide,
   Do_without_endpoint (serve 200 "a 1".toList)
    (((NewClient.FilterByName (some [['a']])).FilterByType (some [GaugeType])).FilterByLabel
      (some [[(['k'], [['v']])]])) (by decide)⟩

/-! ## Label blocks -/

/-- C19 (the code departs from the claim): for the bodies `foo{bar} 1` and `foo{a="b",} 1`,
whose brace block has an entry without equals sign, `Do` returns no `Result`: it panics with
`index out of range [1] with length 1` at `tmp[1]`, in the loop that decodes the labels. -/
theorem Do_panics_on_label_without_equals :
    (NewClient.Endpoint exampleEndpoint).Do (serve 200 "foo\x7bbar\x7d 1".toList) =
      .error (.indexOutOfRange 1 1) ∧
    (NewClient.Endpoint exampleEndpoint).Do (serve 200 "foo\x7ba=\"b\",\x7d 1".toList) =
      .error (.indexOutOfRange 1 1) := by
  set_option maxRecDepth 100000 in decide

/-! ## The grouping keeps its invariant -/

theorem appendToLast_concat (pair : LabelValuePair) (m : Metric) :
    ∀ ms : List Metric,
      appendToLast pair (ms ++ [m]) = some (ms ++ [{ m with Values := m.Values ++ [pair] }]) := by
  intro ms
  induction ms with
  | nil => rfl
  | cons x rest ih =>
    cases rest with
    | nil => simp [appendToLast]
    | cons y rest' =>
      have := ih
      simp only [List.cons_append] at this ⊢
      simp only [appendToLast, this, Option.map_some']

theorem Acc.Inv_init : Acc.init.Inv := by
  simp [Acc.Inv, Acc.init]

theorem namedPairs_append (xs ys : List Metric) :
    namedPairs (xs ++ ys) = namedPairs xs ++ namedPairs ys := by
  simp [namedPairs]

theorem accumulate_inv (acc : Acc) (s : Sample) (hinv : acc.Inv) (hs : s.metricName ≠ []) :
    ∃ acc', accumulate acc s = .ok acc' ∧ acc'.Inv ∧ acc'.lastMetricName = s.metricName ∧
      namedPairs acc'.Metric = namedPairs acc.Metric ++ [(s.metricName, s.pair)] ∧
      acc'.Metric.length =
        acc.Metric.length + (if acc.lastMetricName = s.metricName then 0 else 1) := by
  obtain ⟨h1, h2, h3⟩ := hinv
  by_cases hne : acc.lastMetricName = s.metricName
  · -- the sample joins the last record
    rcases List.eq_nil_or_concat acc.Metric with hnil | ⟨L, b, hL⟩
    · rw [hnil] at h3
      simp only [List.getLast?_nil, Option.map_none', Option.getD_none] at h3
      exact absurd (h3.trans hne).symm hs
    · rw [List.concat_eq_append] at hL
      have hb : b.Name = s.metricName := by
        rw [hL] at h3
        simpa [hne] using h3
      refine ⟨{ acc with Metric := L ++ [{ b with Values := b.Values ++ [s.pair] }] }, ?_, ?_,
        hne, ?_, ?_⟩
      · simp only [accumulate, hne, ne_eq, not_true_eq_false, if_false, hL]
        rw [show ({ Label := s.labels, Value := s.value } : LabelValuePair) = s.pair from rfl,
          appendToLast_concat]
      · rw [hL] at h1 h2
        refine ⟨?_, ?_, ?_⟩
        · intro m hm
          simp only [List.mem_append, List.mem_singleton] at hm
          rcases hm with hm | rfl
          · exact h1 m (List.mem_append_left _ hm)
          · exact ⟨by simp, (h1 b (by simp)).2⟩
        · rw [List.chain'_append] at h2 ⊢
          refine ⟨h2.1, List.chain'_singleton _, ?_⟩
          intro x hx y hy
          simp only [List.head?_cons, Option.mem_def, Option.some.injEq] at hy
          subst hy
          exact h2.2.2 x hx b (by simp)
        · simp [hb, hne]
      · rw [hL]
        simp [namedPairs, hb]
      · rw [hL]; simp [hne]
  · -- the sample opens a record
    refine ⟨_, by simp only [accumulate, ne_eq, hne, not_false_eq_true, if_true]; rfl, ?_, rfl,
      ?_, ?_⟩
    · refine ⟨?_, ?_, ?_⟩
      · intro m hm
        simp only [List.mem_append, List.mem_singleton] at hm
        rcases hm with hm | rfl
        · exact h1 m hm
        · exact ⟨by simp, hs⟩
      · rw [List.chain'_append]
        refine ⟨h2, List.chain'_singleton _, ?_⟩
        intro x hx y hy
        simp only [List.head?_cons, Option.mem_def, Option.some.injEq] at hy
        subst hy
        have hx' : acc.Metric.getLast? = some x := hx
        rw [hx'] at h3
        simp only [Option.map_some', Option.getD_some] at h3
        simpa [h3] using hne
      · simp
    · simp [namedPairs, Sample.pair]
    · simp [hne]

theorem groupFrom_inv (ss : List Sample) :
    ∀ acc : Acc, acc.Inv → (∀ s ∈ ss, s.metricName ≠ []) →
      ∃ acc', groupFrom acc ss = .ok acc' ∧ acc'.Inv ∧
        namedPairs acc'.Metric =
          namedPairs acc.Metric ++ ss.map (fun s => (s.metricName, s.pair)) ∧
        acc'.Metric.length =
          acc.Metric.length + nameChanges acc.lastMetricName (ss.map Sample.metricName) := by
  induction ss with
  | nil => intro acc hinv _; exact ⟨acc, rfl, hinv, by simp, by simp [nameChanges]⟩
  | cons s rest ih =>
    intro acc hinv hs
    obtain ⟨mid, hm, hmi, hml, hmp, hmn⟩ :=
      accumulate_inv acc s hinv (hs s (List.mem_cons_self _ _))
    obtain ⟨acc', ha, hai, hap, han⟩ :=
      ih mid hmi (fun t ht => hs t (List.mem_cons_of_mem _ ht))
    refine ⟨acc', by simp [groupFrom, hm, ha], hai, ?_, ?_⟩
    · rw [hap, hmp]; simp
    · rw [han, hmn, hml]
      simp only [List.map_cons, nameChanges]
      omega

/-! ## Runs of names -/

theorem splitBy_loop_length (l : List GoString) :
    ∀ (a : GoString) (g : List GoString) (gs : List (List GoString)),
      (List.splitBy.loop (fun a b => a == b) l a g gs).length =
        gs.length + 1 + nameChanges a l := by
  induction l with
  | nil => intro a g gs; simp [List.splitBy.loop, nameChanges]
  | cons b rest ih =>
    intro a g gs
    by_cases hab : a = b
    · subst hab
      simp [List.splitBy.loop, nameChanges, ih]
    · have : (a == b) = false := by simpa using hab
      simp only [List.splitBy.loop, this, nameChanges, hab, if_false, ih, List.length_cons]
      omega

theorem countRuns_cons (a : GoString) (l : List GoString) :
    countRuns (a :: l) = 1 + nameChanges a l := by
  simp only [countRuns, List.splitBy, splitBy_loop_length, List.length_nil]

theorem countRuns_eq_nameChanges (l : List GoString) (h : ∀ a ∈ l, a ≠ []) :
    countRuns l = nameChanges [] l := by
  cases l with
  | nil => rfl
  | cons a rest =>
    have ha : ¬ ([] : GoString) = a := fun e => h a (List.mem_cons_self _ _) e.symm
    rw [countRuns_cons]
    simp [nameChanges, ha]

/-! ## Every sample has a name -/

theorem samplesFrom_name_ne_nil (lines : List GoString) :
    ∀ (p : Pending), ∀ s ∈ samplesFrom p lines, s.metricName ≠ [] := by
  induction lines with
  | nil => intro p s hs; simp [samplesFrom] at hs
  | cons l rest ih =>
    intro p s hs
    cases hl : readLine p l with
    | skip p' => simp only [samplesFrom, hl] at hs; exact ih p' s hs
    | ret err => simp [samplesFrom, hl] at hs
    | panic q => simp [samplesFrom, hl] at hs
    | sample t =>
      simp only [samplesFrom, hl, List.mem_cons] at hs
      rcases hs with rfl | hs
      · obtain ⟨_, hd, _⟩ := readLine_sample p l s hl
        obtain ⟨c, cs, _, _, hN⟩ := decodeSample_ok l _ _ _ hd
        rw [hN]; exact List.cons_ne_nil _ _
      · exact ih t.pending s hs

theorem admitted_name_ne_nil (c : Client) (body : GoString) :
    ∀ s ∈ (samples body).filter (admitted c), s.metricName ≠ [] := by
  intro s hs
  exact samplesFrom_name_ne_nil _ _ s (List.mem_filter.1 hs).1

/-- The records of `Do` on a response are the grouping of the admitted samples, which never
fails; how `Do` ends depends on the lines alone. -/
theorem Do_grouped (d : HttpTransport) (c : Client) (status : Int) (body : GoString)
    (hend : c.endpoint ≠ [])
    (hresp : (c.httpClient.getD d) c.endpoint = .response status body) :
    ∃ acc, groupFrom Acc.init ((samples body).filter (admitted c)) = .ok acc ∧ acc.Inv ∧
      namedPairs acc.Metric =
        ((samples body).filter (admitted c)).map (fun s => (s.metricName, s.pair)) ∧
      acc.Metric.length =
        nameChanges [] (((samples body).filter (admitted c)).map Sample.metricName) ∧
      c.Do d =
        match scanEnd Pending.init (scanLines body) with
        | none => .ok { ResponseStatus := status, Err := none, Metric := acc.Metric }
        | some (.ret err) =>
          .ok { ResponseStatus := status, Err := some err, Metric := acc.Metric }
        | some (.panic q) => .error q := by
  obtain ⟨acc, hg, hinv, hp, hl⟩ :=
    groupFrom_inv ((samples body).filter (admitted c)) Acc.init Acc.Inv_init
      (admitted_name_ne_nil c body)
  refine ⟨acc, hg, hinv, by simpa [Acc.init, namedPairs] using hp,
    by simpa [Acc.init] using hl, ?_⟩
  rw [Do_response d c status body hend hresp, scanLoop_eq]
  unfold samples at hg
  rw [hg]

/-! ## Records and runs -/

theorem admitted_without_filters (c : Client) (hname : sliceList c.nameFilter = [])
    (htype : sliceList c.typeFilter = []) (hlabel : sliceList c.labelFilter = [])
    (l : List Sample) : l.filter (admitted c) = l := by
  apply List.filter_eq_self.2
  intro s _
  simp [admitted, hname, htype, hlabel]

theorem allPairs_eq_map_namedPairs (ms : List Metric) :
    allPairs ms = (namedPairs ms).map (fun t => t.2) := by
  induction ms with
  | nil => rfl
  | cons m rest ih =>
    have h1 : allPairs (m :: rest) = m.Values ++ allPairs rest := by simp [allPairs]
    have h2 : namedPairs (m :: rest) =
        m.Values.map (fun v => (m.Name, v)) ++ namedPairs rest := by simp [namedPairs]
    rw [h1, h2, ih]
    simp

/-- C12: for a body parsed without error and any filters, the number of records of the
result is the number of maximal runs of consecutive equal metric names in the sequence of
the admitted samples, taken in source order; with no filters it is the number of maximal runs
of consecutive sample lines that share their name. -/
theorem Do_record_count (d : HttpTransport) (c : Client) (status : Int) (body : GoString)
    (r : Result) (hend : c.endpoint ≠ [])
    (hresp : (c.httpClient.getD d) c.endpoint = .response status body)
    (hdo : c.Do d = .ok r) (herr : r.Err = none) :
    r.Metric.length =
      countRuns (((samples body).filter (admitted c)).map Sample.metricName) ∧
    (sliceList c.nameFilter = [] → sliceList c.typeFilter = [] →
      sliceList c.labelFilter = [] →
      r.Metric.length = countRuns ((decodedLines body).map fun t => t.1)) := by
  obtain ⟨hscan, acc0, hg0, hr0⟩ := Do_ok_none d c status body r hend hresp hdo herr
  obtain ⟨acc, hg, _, _, hlen, _⟩ := Do_grouped d c status body hend hresp
  have hacc : acc0 = acc := by
    rw [hg] at hg0
    exact (Except.ok.inj hg0).symm
  subst hacc
  have hcount : r.Metric.length =
      countRuns (((samples body).filter (admitted c)).map Sample.metricName) := by
    rw [hr0, countRuns_eq_nameChanges]
    · exact hlen
    · intro a ha
      obtain ⟨s, hs, rfl⟩ := List.mem_map.1 ha
      exact admitted_name_ne_nil c body s hs
  refine ⟨hcount, fun hn ht hl => ?_⟩
  rw [hcount, admitted_without_filters c hn ht hl, decodedLines_eq body hscan, List.map_map]
  rfl

/-- C16: for a body parsed without error and any filters, every record of the result has at
least one pair, adjacent records have different names, the pairs of the records, read in
record order, are the pairs of the admitted samples in source order, and each pair lies in a
record whose `Name` is the metric name of its sample. -/
theorem Do_record_invariants (d : HttpTransport) (c : Client) (status : Int)
    (body : GoString) (r : Result) (hend : c.endpoint ≠ [])
    (hresp : (c.httpClient.getD d) c.endpoint = .response status body)
    (hdo : c.Do d = .ok r) (herr : r.Err = none) :
    (∀ m ∈ r.Metric, m.Values ≠ []) ∧
    List.Chain' (fun a b : Metric => a.Name ≠ b.Name) r.Metric ∧
    allPairs r.Metric = ((samples body).filter (admitted c)).map Sample.pair ∧
    namedPairs r.Metric =
      ((samples body).filter (admitted c)).map (fun s => (s.metricName, s.pair)) := by
  obtain ⟨_, acc0, hg0, hr0⟩ := Do_ok_none d c status body r hend hresp hdo herr
  obtain ⟨acc, hg, hinv, hp, _, _⟩ := Do_grouped d c status body hend hresp
  have hacc : acc0 = acc := by
    rw [hg] at hg0
    exact (Except.ok.inj hg0).symm
  subst hacc
  subst hr0
  refine ⟨fun m hm => (hinv.1 m hm).1, hinv.2.1, ?_, hp⟩
  rw [allPairs_eq_map_namedPairs, hp, List.map_map]
  rfl

/-- C12 on the body `a 1`, `a 2`, `b 3`, `a 4` without filters: three records. -/
theorem Do_record_count_witness :
    (NewClient.Endpoint exampleEndpoint).Do (serve 200 runsBody) = .ok runsResult ∧
    runsResult.Metric.length = 3 ∧
    (runsResult.Metric.length =
      countRuns (((samples runsBody).filter
        (admitted (NewClient.Endpoint exampleEndpoint))).map Sample.metricName) ∧
    (sliceList (NewClient.Endpoint exampleEndpoint).nameFilter = [] →
      sliceList (NewClient.Endpoint exampleEndpoint).typeFilter = [] →
      sliceList (NewClient.Endpoint exampleEndpoint).labelFilter = [] →
      runsResult.Metric.length = countRuns ((decodedLines runsBody).map fun t => t.1))) :=
  ⟨by set_option maxRecDepth 100000 in decide, by decide,
   Do_record_count (serve 200 runsBody) (NewClient.Endpoint exampleEndpoint) 200 runsBody
    runsResult (by decide) (by rfl) (by set_option maxRecDepth 100000 in decide) (by rfl)⟩

/-- C16 on the body `a 1`, `a 2`, `b 3`, `a 4` without filters. -/
theorem Do_record_invariants_witness :
    (NewClient.Endpoint exampleEndpoint).Do (serve 200 runsBody) = .ok runsResult ∧
    ((∀ m ∈ runsResult.Metric, m.Values ≠ []) ∧
    List.Chain' (fun a b : Metric => a.Name ≠ b.Name) runsResult.Metric ∧
    allPairs runsResult.Metric =
      ((samples runsBody).filter (admitted (NewClient.Endpoint exampleEndpoint))).map
        Sample.pair ∧
    namedPairs runsResult.Metric =
      ((samples runsBody).filter (admitted (NewClient.Endpoint exampleEndpoint))).map
        (fun s => (s.metricName, s.pair))) :=
  ⟨by set_option maxRecDepth 100000 in decide,
   Do_record_invariants (serve 200 runsBody) (NewClient.Endpoint exampleEndpoint) 200 runsBody
    runsResult (by decide) (by rfl) (by set_option maxRecDepth 100000 in decide) (by rfl)⟩

/-! ## The panics of `Do` -/

theorem labelPairs_error_index (ls : List GoString) :
    ∀ (m : GoMap GoString) (q : Panic), labelPairs ls m = .error q →
      ∃ n, q = .indexOutOfRange 1 n := by
  induction ls with
  | nil => intro m q h; simp [labelPairs] at h
  | cons l rest ih =>
    intro m q h
    simp only [labelPairs] at h
    split at h
    · exact ih _ q h
    · simp only [Except.error.injEq] at h
      exact ⟨_, h.symm⟩

theorem decodeSample_panic_index (line : GoString) (q : Panic)
    (h : decodeSample line = .error (.panic q)) : ∃ n, q = .indexOutOfRange 1 n := by
  rcases FindStringSubmatch_cases line with h0 | ⟨c, cs, block, labels, value, _, _, hm⟩
  · rw [decodeSample_unmatched line h0] at h
    simp only [Except.error.injEq, Abort.panic.injEq] at h
    exact ⟨0, h.symm⟩
  · rw [decodeSample_matched line _ block labels value hm (List.cons_ne_nil _ _)] at h
    split at h
    · simp at h
    · split at h
      · simp at h
      · split at h
        · next p hp =>
          simp only [Except.error.injEq, Abort.panic.injEq] at h
          subst h
          exact labelPairs_error_index _ _ _ hp
        · simp at h

theorem readLine_panic (p : Pending) (line : GoString) (q : Panic)
    (h : readLine p line = .panic q) : decodeSample line = .error (.panic q) := by
  unfold readLine at h
  split at h
  · simp at h
  · split at h
    · simp at h
    · split at h
      · simp at h
      · split at h
        · simp at h
        · next q' he => simp only [LineResult.panic.injEq] at h; rw [he, h]
        · simp at h

theorem scanEnd_panic_index (lines : List GoString) :
    ∀ (p : Pending) (q : Panic), scanEnd p lines = some (.panic q) →
      ∃ n, q = .indexOutOfRange 1 n := by
  induction lines with
  | nil => intro p q h; simp [scanEnd] at h
  | cons l rest ih =>
    intro p q h
    cases hl : readLine p l with
    | skip p' => simp only [scanEnd, hl] at h; exact ih p' q h
    | sample s => simp only [scanEnd, hl] at h; exact ih s.pending q h
    | ret err => simp [scanEnd, hl] at h
    | panic q' =>
      simp only [scanEnd, hl, Option.some.injEq, Abort.panic.injEq] at h
      subst h
      exact decodeSample_panic_index l q' (readLine_panic p l q' hl)

/-- C20: for every body and all filters, when an admitted sample comes up for grouping after
the admitted samples before it, its metric name is not empty, while `lastMetricName` starts
as the empty string; the grouping of the samples before it has succeeded, and if the name of
the sample equals `lastMetricName`, so that `Do` takes the branch that appends to the last
record, the record list is not empty and the step succeeds. `Do` never ends in the panic
`index out of range [-1]`. -/
theorem append_branch_index_in_range (d : HttpTransport) (c : Client) (status : Int)
    (body : GoString) (pre post : List Sample) (s : Sample)
    (hend : c.endpoint ≠ [])
    (hresp : (c.httpClient.getD d) c.endpoint = .response status body)
    (h : (samples body).filter (admitted c) = pre ++ s :: post) :
    s.metricName ≠ [] ∧ Acc.init.lastMetricName = [] ∧
    (∃ acc, groupFrom Acc.init pre = .ok acc ∧
      (acc.lastMetricName = s.metricName → acc.Metric ≠ []) ∧
      ∃ acc', accumulate acc s = .ok acc') ∧
    c.Do d ≠ .error (.indexOutOfRange (-1) 0) := by
  have hnames := admitted_name_ne_nil c body
  rw [h] at hnames
  have hs : s.metricName ≠ [] := hnames s (by simp)
  obtain ⟨acc, hg, hinv, _, _⟩ :=
    groupFrom_inv pre Acc.init Acc.Inv_init (fun t ht => hnames t (by simp [ht]))
  obtain ⟨acc', ha, _⟩ := accumulate_inv acc s hinv hs
  refine ⟨hs, rfl, ⟨acc, hg, ?_, acc', ha⟩, ?_⟩
  · intro hl hnil
    have h3 := hinv.2.2
    rw [hnil] at h3
    simp only [List.getLast?_nil, Option.map_none', Option.getD_none] at h3
    exact hs (hl.symm.trans h3.symm)
  · obtain ⟨acc0, _, _, _, _, hdo⟩ := Do_grouped d c status body hend hresp
    rw [hdo]
    cases hsc : scanEnd Pending.init (scanLines body) with
    | none => simp
    | some a =>
      cases a with
      | ret err => simp
      | panic q =>
        obtain ⟨n, hn⟩ := scanEnd_panic_index _ _ _ hsc
        subst hn
        simp

/-- C20 on the body `a 1`, `a 2`, `b 3`, `a 4` without filters, at the second sample, which
joins the record of the first. -/
theorem append_branch_index_in_range_witness :
    (samples runsBody).filter (admitted (NewClient.Endpoint exampleEndpoint)) =
      [plainSample ['a'] 1] ++ plainSample ['a'] 2 ::
        [plainSample ['b'] 3, plainSample ['a'] 4] ∧
    ((plainSample ['a'] 2).metricName ≠ [] ∧ Acc.init.lastMetricName = [] ∧
    (∃ acc, groupFrom Acc.init [plainSample ['a'] 1] = .ok acc ∧
      (acc.lastMetricName = (plainSample ['a'] 2).metricName → acc.Metric ≠ []) ∧
      ∃ acc', accumulate acc (plainSample ['a'] 2) = .ok acc') ∧
    (NewClient.Endpoint exampleEndpoint).Do (serve 200 runsBody) ≠
      .error (.indexOutOfRange (-1) 0)) :=
  ⟨by set_option maxRecDepth 100000 in decide,
   append_branch_index_in_range (serve 200 runsBody) (NewClient.Endpoint exampleEndpoint) 200
    runsBody [plainSample ['a'] 1] [plainSample ['b'] 3, plainSample ['a'] 4]
    (plainSample ['a'] 2) (by decide) (by rfl)
    (by set_option maxRecDepth 100000 in decide)⟩

/-! ## Filters never add records -/

theorem nameChanges_le_succ (l : List GoString) (p a : GoString) :
    nameChanges p l ≤ 1 + nameChanges a l := by
  cases l with
  | nil => simp [nameChanges]
  | cons x rest =>
    simp only [nameChanges]
    split <;> split <;> omega

theorem nameChanges_sublist {l' l : List GoString} (h : l'.Sublist l) :
    ∀ p : GoString, nameChanges p l' ≤ nameChanges p l := by
  induction h with
  | slnil => intro p; exact Nat.le_refl _
  | cons a _ ih =>
    intro p
    simp only [nameChanges]
    have h1 := ih p
    have h2 := ih a
    rename_i l₁ l₂ _
    have h3 := nameChanges_le_succ l₁ p a
    split
    · next hpa => subst hpa; omega
    · omega
  | cons₂ a _ ih =>
    intro p
    simp only [nameChanges]
    have := ih a
    omega

theorem withoutFilters_admitted (c : Client) (l : List Sample) :
    l.filter (admitted c.withoutFilters) = l :=
  admitted_without_filters c.withoutFilters rfl rfl rfl l

theorem Do_endpoint_missing (d : HttpTransport) (c : Client) (h : c.endpoint = []) :
    c.Do d = .ok { ResponseStatus := 0, Err := some .ErrEndpointMissing, Metric := [] } := by
  simp [Client.Do, h]

/-- C14: for every body and all filters, `Do` with the filters and `Do` on the same client
without filters end alike, in the same panic or with the same `Err` and response status, and
the filtered run returns at most as many records as the unfiltered one. -/
theorem Do_filter_monotone (d : HttpTransport) (c : Client) :
    match c.Do d, c.withoutFilters.Do d with
    | .ok r, .ok r0 =>
      r.Metric.length ≤ r0.Metric.length ∧ r.Err = r0.Err ∧
        r.ResponseStatus = r0.ResponseStatus
    | .error q, .error q0 => q = q0
    | _, _ => False := by
  by_cases hend : c.endpoint = []
  · have h0 : c.withoutFilters.endpoint = [] := hend
    rw [Do_endpoint_missing d c hend, Do_endpoint_missing d c.withoutFilters h0]
    simp
  · have hend0 : c.withoutFilters.endpoint ≠ [] := hend
    cases hresp : (c.httpClient.getD d) c.endpoint with
    | requestError err =>
      have hresp0 : (c.withoutFilters.httpClient.getD d) c.withoutFilters.endpoint =
          .requestError err := hresp
      have e1 : c.Do d = .ok { ResponseStatus := 0, Err := some err, Metric := [] } := by
        cases hc : c.endpoint with
        | nil => exact absurd hc hend
        | cons x xs => rw [hc] at hresp; simp [Client.Do, hc, hresp]
      have e2 : c.withoutFilters.Do d =
          .ok { ResponseStatus := 0, Err := some err, Metric := [] } := by
        cases hc : c.withoutFilters.endpoint with
        | nil => exact absurd hc hend0
        | cons x xs => rw [hc] at hresp0; simp [Client.Do, hc, hresp0]
      rw [e1, e2]; simp
    | readError status err =>
      have hresp0 : (c.withoutFilters.httpClient.getD d) c.withoutFilters.endpoint =
          .readError status err := hresp
      have e1 : c.Do d = .ok { ResponseStatus := status, Err := some err, Metric := [] } := by
        cases hc : c.endpoint with
        | nil => exact absurd hc hend
        | cons x xs => rw [hc] at hresp; simp [Client.Do, hc, hresp]
      have e2 : c.withoutFilters.Do d =
          .ok { ResponseStatus := status, Err := some err, Metric := [] } := by
        cases hc : c.withoutFilters.endpoint with
        | nil => exact absurd hc hend0
        | cons x xs => rw [hc] at hresp0; simp [Client.Do, hc, hresp0]
      rw [e1, e2]; simp
    | response status body =>
      have hresp0 : (c.withoutFilters.httpClient.getD d) c.withoutFilters.endpoint =
          .response status body := hresp
      obtain ⟨acc, _, _, _, hlen, hdo⟩ := Do_grouped d c status body hend hresp
      obtain ⟨acc0, _, _, _, hlen0, hdo0⟩ :=
        Do_grouped d c.withoutFilters status body hend0 hresp0
      rw [withoutFilters_admitted] at hlen0
      have hle : acc.Metric.length ≤ acc0.Metric.length := by
        rw [hlen, hlen0]
        exact nameChanges_sublist (List.Sublist.map _ (List.filter_sublist _)) []
      rw [hdo, hdo0]
      cases hsc : scanEnd Pending.init (scanLines body) with
      | none => exact ⟨hle, rfl, rfl⟩
      | some a =>
        cases a with
        | ret err => exact ⟨hle, rfl, rfl⟩
        | panic q => rfl

/-! ## Samples of one name in separate records -/

theorem groupFrom_append (xs ys : List Sample) :
    ∀ acc : Acc, groupFrom acc (xs ++ ys) =
      match groupFrom acc xs with
      | .error q => .error q
      | .ok mid => groupFrom mid ys := by
  induction xs with
  | nil => intro acc; rfl
  | cons x rest ih =>
    intro acc
    simp only [List.cons_append, groupFrom]
    cases accumulate acc x with
    | error q => rfl
    | ok mid => exact ih mid

theorem groupFrom_keeps_front (rest : List Sample) :
    ∀ (A X : List Metric) (n : GoString) (acc' : Acc), X ≠ [] →
      groupFrom { Metric := A ++ X, lastMetricName := n } rest = .ok acc' →
      ∃ X', X' ≠ [] ∧ acc'.Metric = A ++ X' ∧
        allPairs X' = allPairs X ++ rest.map Sample.pair := by
  induction rest with
  | nil =>
    intro A X n acc' hX h
    simp only [groupFrom, Except.ok.injEq] at h
    subst h
    exact ⟨X, hX, rfl, by simp⟩
  | cons s rest ih =>
    intro A X n acc' hX h
    simp only [groupFrom] at h
    by_cases hn : n = s.metricName
    · rcases List.eq_nil_or_concat X with hnil | ⟨X0, b, hb⟩
      · exact absurd hnil hX
      · rw [List.concat_eq_append] at hb
        subst hb
        have hacc : accumulate { Metric := A ++ (X0 ++ [b]), lastMetricName := n } s =
            .ok { Metric := A ++ (X0 ++ [{ b with Values := b.Values ++ [s.pair] }]),
                  lastMetricName := n } := by
          simp only [accumulate, hn, ne_eq, not_true_eq_false, if_false]
          rw [show ({ Label := s.labels, Value := s.value } : LabelValuePair) = s.pair from rfl,
            ← List.append_assoc, appendToLast_concat]
          simp
        rw [hacc] at h
        obtain ⟨X', hX', hm, hp⟩ := ih A _ n acc' (by simp) h
        refine ⟨X', hX', hm, ?_⟩
        rw [hp]
        simp [allPairs]
    · have hacc : ∃ rec : Metric, rec.Values = [s.pair] ∧
          accumulate { Metric := A ++ X, lastMetricName := n } s =
            .ok { Metric := A ++ (X ++ [rec]), lastMetricName := s.metricName } := by
        refine ⟨{ Name := s.metricName
                  Help := ReplaceAll s.pending.lastHelp (s.metricName ++ [' ']) []
                  Typ := s.pending.lastType
                  TypeRaw := ReplaceAll s.pending.lastTypeRaw (s.metricName ++ [' ']) []
                  Values := [s.pair] }, rfl, ?_⟩
        simp only [accumulate, ne_eq, hn, not_false_eq_true, if_true, List.append_assoc,
          Sample.pair]
      obtain ⟨rec, hrec, hacc⟩ := hacc
      rw [hacc] at h
      obtain ⟨X', hX', hm, hp⟩ := ih A _ s.metricName acc' (by simp) h
      refine ⟨X', hX', hm, ?_⟩
      rw [hp]
      simp [allPairs, hrec]

theorem exists_first_other {α : Type} (P : α → Prop) :
    ∀ l : List α, (∃ u ∈ l, ¬ P u) →
      ∃ l₁ u l₂, l = l₁ ++ u :: l₂ ∧ (∀ x ∈ l₁, P x) ∧ ¬ P u := by
  intro l
  induction l with
  | nil => intro h; obtain ⟨u, hu, _⟩ := h; simp at hu
  | cons a rest ih =>
    intro h
    by_cases ha : P a
    · obtain ⟨u, hu, hn⟩ := h
      have hu' : u ∈ rest := by
        rcases List.mem_cons.1 hu with rfl | hu'
        · exact absurd ha hn
        · exact hu'
      obtain ⟨l₁, v, l₂, hl, h1, h2⟩ := ih ⟨u, hu', hn⟩
      refine ⟨a :: l₁, v, l₂, by simp [hl], ?_, h2⟩
      intro x hx
      rcases List.mem_cons.1 hx with rfl | hx
      · exact ha
      · exact h1 x hx
    · exact ⟨[], a, rest, rfl, by simp, ha⟩

theorem groupFrom_lastMetricName (front : List Sample) (l : Sample) :
    ∀ acc acc' : Acc, acc.Inv → (∀ s ∈ front ++ [l], s.metricName ≠ []) →
      groupFrom acc (front ++ [l]) = .ok acc' →
      acc'.Inv ∧ acc'.lastMetricName = l.metricName := by
  intro acc acc' hinv hn h
  rw [groupFrom_append] at h
  obtain ⟨mid, hm, hmi, _, _⟩ :=
    groupFrom_inv front acc hinv (fun s hs => hn s (List.mem_append_left _ hs))
  rw [hm] at h
  simp only [groupFrom] at h
  obtain ⟨last, hl, hli, hln, _, _⟩ := accumulate_inv mid l hmi (hn l (by simp))
  rw [hl] at h
  simp only [Except.ok.injEq] at h
  subst h
  exact ⟨hli, hln⟩

/-- C13, counterexample: in the body `up 1`, `down 2`, `up 3` the two samples of `up` are
separated by a sample line of `down`; with the name filter `[up]` the line of `down` is not
admitted, and both samples of `up` are in one record. -/
theorem Do_groups_across_filtered_sample :
    decodedLines upDownBody =
      [("up".toList, { neg := false, mant := 1, exp := 0 }, []),
       ("down".toList, { neg := false, mant := 2, exp := 0 }, []),
       ("up".toList, { neg := false, mant := 3, exp := 0 }, [])] ∧
    ((NewClient.Endpoint exampleEndpoint).FilterByName (some ["up".toList])).Do
        (serve 200 upDownBody) =
      .ok { ResponseStatus := 200, Err := none,
            Metric := [plainRecord "up".toList [1, 3]] } := by
  set_option maxRecDepth 100000 in decide

theorem groupFrom_split_at_change (F0 : List Sample) (l u : Sample) (B : List Sample)
    (acc : Acc) (hn : ∀ x ∈ (F0 ++ [l]) ++ u :: B, x.metricName ≠ [])
    (hne : l.metricName ≠ u.metricName)
    (hg : groupFrom Acc.init ((F0 ++ [l]) ++ u :: B) = .ok acc) :
    ∃ front back, acc.Metric = front ++ back ∧
      allPairs front = (F0 ++ [l]).map Sample.pair ∧
      allPairs back = (u :: B).map Sample.pair := by
  rw [groupFrom_append] at hg
  cases hg1 : groupFrom Acc.init (F0 ++ [l]) with
  | error q => rw [hg1] at hg; exact Except.noConfusion hg
  | ok acc1 =>
    rw [hg1] at hg
    simp only [] at hg
    obtain ⟨_, hlast⟩ := groupFrom_lastMetricName F0 l Acc.init acc1 Acc.Inv_init
      (fun x hx => hn x (List.mem_append_left _ hx)) hg1
    have hp1 := groupFrom_allPairs _ _ _ hg1
    have hne' : acc1.lastMetricName ≠ u.metricName := by rw [hlast]; exact hne
    simp only [groupFrom] at hg
    have hacc : accumulate acc1 u =
        .ok { Metric := acc1.Metric ++
                [{ Name := u.metricName
                   Help := ReplaceAll u.pending.lastHelp (u.metricName ++ [' ']) []
                   Typ := u.pending.lastType
                   TypeRaw := ReplaceAll u.pending.lastTypeRaw (u.metricName ++ [' ']) []
                   Values := [u.pair] }],
              lastMetricName := u.metricName } := by
      simp only [accumulate, ne_eq, hne', not_false_eq_true, if_true, Sample.pair]
    rw [hacc] at hg
    obtain ⟨back, _, hback, hpb⟩ :=
      groupFrom_keeps_front _ acc1.Metric _ u.metricName acc (List.cons_ne_nil _ _) hg
    refine ⟨acc1.Metric, back, hback, ?_, ?_⟩
    · rw [hp1]; simp [Acc.init, allPairs]
    · rw [hpb]; simp [allPairs]

theorem accumulate_last (acc : Acc) (s : Sample) (hinv : acc.Inv) (hs : s.metricName ≠ []) :
    ∃ (L : List Metric) (b : Metric) (before : List LabelValuePair),
      accumulate acc s = .ok { Metric := L ++ [b], lastMetricName := s.metricName } ∧
      b.Name = s.metricName ∧ b.Values = before ++ [s.pair] ∧
      allPairs L ++ before = allPairs acc.Metric := by
  obtain ⟨_, _, h3⟩ := hinv
  by_cases hne : acc.lastMetricName = s.metricName
  · rcases List.eq_nil_or_concat acc.Metric with hnil | ⟨L, b0, hL⟩
    · rw [hnil] at h3
      simp only [List.getLast?_nil, Option.map_none', Option.getD_none] at h3
      exact absurd (h3.trans hne).symm hs
    · rw [List.concat_eq_append] at hL
      have hb : b0.Name = s.metricName := by
        rw [hL] at h3
        simpa [hne] using h3
      refine ⟨L, { b0 with Values := b0.Values ++ [s.pair] }, b0.Values, ?_, hb, rfl, ?_⟩
      · simp only [accumulate, hne, ne_eq, not_true_eq_false, if_false, hL]
        rw [show ({ Label := s.labels, Value := s.value } : LabelValuePair) = s.pair from rfl,
          appendToLast_concat]
      · rw [hL]; simp [allPairs]
  · refine ⟨acc.Metric,
      { Name := s.metricName
        Help := ReplaceAll s.pending.lastHelp (s.metricName ++ [' ']) []
        Typ := s.pending.lastType
        TypeRaw := ReplaceAll s.pending.lastTypeRaw (s.metricName ++ [' ']) []
        Values := [s.pair] }, [], ?_, rfl, rfl, by simp⟩
    simp only [accumulate, ne_eq, hne, not_false_eq_true, if_true, Sample.pair]

theorem groupFrom_same_name (M : List Sample) (n : GoString) :
    ∀ (L : List Metric) (b : Metric), (∀ x ∈ M, x.metricName = n) →
      groupFrom { Metric := L ++ [b], lastMetricName := n } M =
        .ok { Metric := L ++ [{ b with Values := b.Values ++ M.map Sample.pair }],
              lastMetricName := n } := by
  induction M with
  | nil => intro L b _; simp [groupFrom]
  | cons x rest ih =>
    intro L b h
    have hx : n = x.metricName := (h x (List.mem_cons_self _ _)).symm
    have hacc : accumulate { Metric := L ++ [b], lastMetricName := n } x =
        .ok { Metric := L ++ [{ b with Values := b.Values ++ [x.pair] }],
              lastMetricName := n } := by
      simp only [accumulate, hx, ne_eq, not_true_eq_false, if_false]
      rw [show ({ Label := x.labels, Value := x.value } : LabelValuePair) = x.pair from rfl,
        appendToLast_concat]
    simp only [groupFrom, hacc]
    rw [ih L _ (fun y hy => h y (List.mem_cons_of_mem _ hy))]
    simp

theorem groupFrom_last_record (rest : List Sample) :
    ∀ (A : List Metric) (b : Metric) (n : GoString) (acc' : Acc),
      groupFrom { Metric := A ++ [b], lastMetricName := n } rest = .ok acc' →
      ∃ (m : Metric) (back : List Metric) (after : List LabelValuePair),
        acc'.Metric = A ++ m :: back ∧ m.Name = b.Name ∧ m.Values = b.Values ++ after ∧
        after ++ allPairs back = rest.map Sample.pair := by
  induction rest with
  | nil =>
    intro A b n acc' h
    simp only [groupFrom, Except.ok.injEq] at h
    subst h
    exact ⟨b, [], [], rfl, rfl, by simp, by simp [allPairs]⟩
  | cons x rest ih =>
    intro A b n acc' h
    simp only [groupFrom] at h
    by_cases hn : n = x.metricName
    · have hacc : accumulate { Metric := A ++ [b], lastMetricName := n } x =
          .ok { Metric := A ++ [{ b with Values := b.Values ++ [x.pair] }],
                lastMetricName := n } := by
        simp only [accumulate, hn, ne_eq, not_true_eq_false, if_false]
        rw [show ({ Label := x.labels, Value := x.value } : LabelValuePair) = x.pair from rfl,
          appendToLast_concat]
      rw [hacc] at h
      obtain ⟨m, back, after, h1, h2, h3, h4⟩ := ih A _ n acc' h
      refine ⟨m, back, x.pair :: after, h1, h2, ?_, ?_⟩
      · rw [h3]; simp
      · simp [h4]
    · have hacc : accumulate { Metric := A ++ [b], lastMetricName := n } x =
          .ok { Metric := (A ++ [b]) ++
                  [{ Name := x.metricName
                     Help := ReplaceAll x.pending.lastHelp (x.metricName ++ [' ']) []
                     Typ := x.pending.lastType
                     TypeRaw := ReplaceAll x.pending.lastTypeRaw (x.metricName ++ [' ']) []
                     Values := [x.pair] }],
                lastMetricName := x.metricName } := by
        simp only [accumulate, ne_eq, hn, not_false_eq_true, if_true, Sample.pair]
      rw [hacc] at h
      obtain ⟨X', _, hm, hp⟩ :=
        groupFrom_keeps_front _ (A ++ [b]) _ x.metricName acc' (List.cons_ne_nil _ _) h
      refine ⟨b, X', [], ?_, rfl, by simp, ?_⟩
      · rw [hm]; simp
      · rw [hp]; simp [allPairs]

theorem groupFrom_same_record (P M rest : List Sample) (s : Sample) (acc : Acc)
    (hn : ∀ x ∈ P ++ s :: (M ++ rest), x.metricName ≠ [])
    (hM : ∀ x ∈ M, x.metricName = s.metricName)
    (hg : groupFrom Acc.init (P ++ s :: (M ++ rest)) = .ok acc) :
    ∃ (front : List Metric) (m : Metric) (back : List Metric)
      (before after : List LabelValuePair),
      acc.Metric = front ++ m :: back ∧ m.Name = s.metricName ∧
      m.Values = before ++ (s :: M).map Sample.pair ++ after ∧
      allPairs front ++ before = P.map Sample.pair ∧
      after ++ allPairs back = rest.map Sample.pair := by
  rw [groupFrom_append] at hg
  obtain ⟨acc0, hg0, hinv0, _, _⟩ :=
    groupFrom_inv P Acc.init Acc.Inv_init (fun x hx => hn x (List.mem_append_left _ hx))
  have hp0 := groupFrom_allPairs _ _ _ hg0
  rw [hg0] at hg
  simp only [groupFrom] at hg
  obtain ⟨L, b, before, hacc, hbn, hbv, hpb⟩ :=
    accumulate_last acc0 s hinv0 (hn s (by simp))
  rw [hacc] at hg
  simp only [] at hg
  rw [groupFrom_append, groupFrom_same_name M s.metricName L b hM] at hg
  simp only [] at hg
  obtain ⟨m, back, after, h1, h2, h3, h4⟩ := groupFrom_last_record rest L _ _ acc hg
  refine ⟨L, m, back, before, after, h1, by rw [h2]; exact hbn, ?_, ?_, h4⟩
  · rw [h3]; simp [hbv]
  · rw [hpb, hp0]; simp [Acc.init, allPairs]

/-- C13, as amended: for a body parsed without error and any filters, let `s` and `t` be two
admitted samples that share a metric name, `s` before `t` in the source text. If at least one
admitted sample with a different metric name stands between them, they are placed in two
different records: the record list splits into a front part and a back part, the front part
holding the pairs of the admitted samples up to a point between `s` and `t`, that of `s`
among them, and the back part the pairs of the later ones, that of `t` among them. If every
sample between them is dropped by a filter or has their name, so that only sample lines that
a filter drops separate them, they are placed in the same record: one record, named as they
are, holds in a row the pairs of `s`, of the admitted samples between them and of `t`. -/
theorem Do_separate_records (d : HttpTransport) (c : Client) (status : Int)
    (body : GoString) (r : Result) (pre mid post : List Sample) (s t : Sample)
    (hend : c.endpoint ≠ [])
    (hresp : (c.httpClient.getD d) c.endpoint = .response status body)
    (hdo : c.Do d = .ok r) (herr : r.Err = none)
    (hsplit : samples body = pre ++ s :: (mid ++ t :: post))
    (hs : admitted c s = true) (ht : admitted c t = true)
    (hst : s.metricName = t.metricName) :
    ((∃ u ∈ mid, admitted c u = true ∧ u.metricName ≠ s.metricName) →
      ∃ mid₁ mid₂ front back, mid = mid₁ ++ mid₂ ∧ r.Metric = front ++ back ∧
        allPairs front = ((pre ++ s :: mid₁).filter (admitted c)).map Sample.pair ∧
        allPairs back = ((mid₂ ++ t :: post).filter (admitted c)).map Sample.pair) ∧
    ((∀ u ∈ mid, admitted c u = true → u.metricName = s.metricName) →
      ∃ (front : List Metric) (m : Metric) (back : List Metric)
        (before after : List LabelValuePair),
        r.Metric = front ++ m :: back ∧ m.Name = s.metricName ∧
        m.Values =
          before ++ ((s :: (mid ++ [t])).filter (admitted c)).map Sample.pair ++ after ∧
        allPairs front ++ before = (pre.filter (admitted c)).map Sample.pair ∧
        after ++ allPairs back = (post.filter (admitted c)).map Sample.pair) := by
  obtain ⟨_, acc0, hg0, hr0⟩ := Do_ok_none d c status body r hend hresp hdo herr
  have hnames := admitted_name_ne_nil c body
  have hmetric : r.Metric = acc0.Metric := by rw [hr0]
  constructor
  · rintro ⟨u0, hu0, ha0, hne0⟩
    obtain ⟨l₁, u, l₂, hm, hsame, hu⟩ :=
      exists_first_other (fun x : Sample => admitted c x = true → x.metricName = s.metricName)
        mid ⟨u0, hu0, fun h => hne0 (h ha0)⟩
    obtain ⟨hua, hune⟩ := Classical.not_imp.1 hu
    obtain ⟨init, l, hl⟩ : ∃ init l, s :: l₁.filter (admitted c) = init ++ [l] := by
      rcases List.eq_nil_or_concat (s :: l₁.filter (admitted c)) with h | ⟨L, b, h⟩
      · exact absurd h (List.cons_ne_nil _ _)
      · exact ⟨L, b, by rw [h, List.concat_eq_append]⟩
    have hlname : l.metricName = s.metricName := by
      have : l ∈ s :: l₁.filter (admitted c) := by rw [hl]; simp
      rcases List.mem_cons.1 this with rfl | h
      · rfl
      · exact hsame l (List.mem_filter.1 h).1 (List.mem_filter.1 h).2
    have e2 : (pre ++ s :: l₁).filter (admitted c) =
        (pre.filter (admitted c) ++ init) ++ [l] := by
      rw [List.append_assoc, ← hl]
      simp [List.filter_append, List.filter_cons, hs]
    have e1 : (samples body).filter (admitted c) =
        ((pre.filter (admitted c) ++ init) ++ [l]) ++
          u :: (l₂ ++ t :: post).filter (admitted c) := by
      rw [← e2, hsplit, hm]
      simp [List.filter_append, List.filter_cons, hs, hua]
    rw [e1] at hg0 hnames
    obtain ⟨front, back, h1, h2, h3⟩ :=
      groupFrom_split_at_change _ l u _ acc0 hnames (by rw [hlname]; exact Ne.symm hune) hg0
    refine ⟨l₁, u :: l₂, front, back, hm, by rw [hmetric, h1], by rw [h2, e2], ?_⟩
    rw [h3]
    simp [List.filter_cons, hua]
  · intro hall
    have hM : ∀ x ∈ mid.filter (admitted c) ++ [t], x.metricName = s.metricName := by
      intro x hx
      rcases List.mem_append.1 hx with h | h
      · exact hall x (List.mem_filter.1 h).1 (List.mem_filter.1 h).2
      · rw [List.mem_singleton.1 h]; exact hst.symm
    have e1 : (samples body).filter (admitted c) =
        pre.filter (admitted c) ++
          s :: ((mid.filter (admitted c) ++ [t]) ++ post.filter (admitted c)) := by
      rw [hsplit]
      simp [List.filter_append, List.filter_cons, hs, ht]
    rw [e1] at hg0 hnames
    obtain ⟨front, m, back, before, after, h1, h2, h3, h4, h5⟩ :=
      groupFrom_same_record _ _ _ s acc0 hnames hM hg0
    refine ⟨front, m, back, before, after, by rw [hmetric, h1], h2, ?_, h4, h5⟩
    rw [h3]
    simp [List.filter_append, List.filter_cons, hs, ht]

/-- C13, as amended, on two bodies. In `a 1`, `a 2`, `b 3`, `a 4` without filters the first
and the last sample of `a` are separated by the admitted sample of `b`, and lie in different
records. In `up 1`, `down 2`, `up 3` with the name filter `[up]` the two samples of `up` are
separated only by the dropped sample of `down`, and lie in one record. -/
theorem Do_separate_records_witness :
    (∃ mid₁ mid₂ front back,
      [plainSample ['a'] 2, plainSample ['b'] 3] = mid₁ ++ mid₂ ∧
      runsResult.Metric = front ++ back ∧
      allPairs front =
        (([] ++ plainSample ['a'] 1 :: mid₁).filter
          (admitted (NewClient.Endpoint exampleEndpoint))).map Sample.pair ∧
      allPairs back =
        ((mid₂ ++ plainSample ['a'] 4 :: []).filter
          (admitted (NewClient.Endpoint exampleEndpoint))).map Sample.pair) ∧
    (∃ (front : List Metric) (m : Metric) (back : List Metric)
      (before after : List LabelValuePair),
      [plainRecord "up".toList [1, 3]] = front ++ m :: back ∧
      m.Name = (plainSample "up".toList 1).metricName ∧
      m.Values =
        before ++
          ((plainSample "up".toList 1 ::
              ([plainSample "down".toList 2] ++ [plainSample "up".toList 3])).filter
            (admitted ((NewClient.Endpoint exampleEndpoint).FilterByName
              (some ["up".toList])))).map Sample.pair ++ after ∧
      allPairs front ++ before =
        (([] : List Sample).filter
          (admitted ((NewClient.Endpoint exampleEndpoint).FilterByName
            (some ["up".toList])))).map Sample.pair ∧
      after ++ allPairs back =
        (([] : List Sample).filter
          (admitted ((NewClient.Endpoint exampleEndpoint).FilterByName
            (some ["up".toList])))).map Sample.pair) :=
  ⟨(Do_separate_records (serve 200 runsBody) (NewClient.Endpoint exampleEndpoint) 200 runsBody
      runsResult [] [plainSample ['a'] 2, plainSample ['b'] 3] [] (plainSample ['a'] 1)
      (plainSample ['a'] 4) (by decide) (by rfl)
      (by set_option maxRecDepth 100000 in decide) (by rfl)
      (by set_option maxRecDepth 100000 in decide) (by decide) (by decide) (by rfl)).1
      ⟨plainSample ['b'] 3, by simp, by decide, by decide⟩,
   (Do_separate_records (serve 200 upDownBody)
      ((NewClient.Endpoint exampleEndpoint).FilterByName (some ["up".toList])) 200 upDownBody
      { ResponseStatus := 200, Err := none, Metric := [plainRecord "up".toList [1, 3]] }
      [] [plainSample "down".toList 2] [] (plainSample "up".toList 1)
      (plainSample "up".toList 3) (by decide) (by rfl)
      (by set_option maxRecDepth 100000 in decide) (by rfl)
      (by set_option maxRecDepth 100000 in decide) (by decide) (by decide) (by rfl)).2
      (by decide)⟩

/-! ## The decoding of a brace block -/

theorem replaceScan_single (q : Char) :
    ∀ s : GoString, replaceScan [q] [] 0 s = s.filter (fun c => c != q) := by
  intro s
  induction s with
  | nil => rfl
  | cons c cs ih =>
    by_cases h : q = c
    · subst h
      simp [replaceScan, List.isPrefixOf, ih]
    · have h1 : (q == c) = false := by simpa using h
      have h2 : (c != q) = true := by simpa using Ne.symm h
      simp [replaceScan, List.isPrefixOf, h1, h2, ih]

theorem ReplaceAll_quotes (v : GoString) (h : '"' ∉ v) :
    ReplaceAll ('"' :: (v ++ ['"'])) ['"'] [] = v := by
  show replaceScan ['"'] [] 0 ('"' :: (v ++ ['"'])) = v
  rw [replaceScan_single]
  simp only [List.filter_cons, bne_self_eq_false, Bool.false_eq_true, if_false,
    List.filter_append, List.filter_nil, List.append_nil]
  apply List.filter_eq_self.2
  intro a ha
  simpa using fun e : a = '"' => h (e ▸ ha)

theorem mapLookup_mapAssign (k : GoString) (v : GoString) (k' : GoString) :
    ∀ m : GoMap GoString,
      mapLookup (mapAssign m k v) k' = if k' = k then some v else mapLookup m k' := by
  intro m
  induction m with
  | nil =>
    by_cases h : k' = k
    · simp [mapAssign, mapLookup, List.lookup, h]
    · have hb : (k' == k) = false := by simpa using h
      simp [mapAssign, mapLookup, List.lookup, h, hb]
  | cons e rest ih =>
    obtain ⟨a, b⟩ := e
    unfold mapLookup at ih ⊢
    by_cases hak : a = k
    · subst hak
      by_cases h : k' = a
      · simp [mapAssign, List.lookup, h]
      · have hb : (k' == a) = false := by simpa using h
        simp [mapAssign, List.lookup, h, hb]
    · by_cases h : k' = k
      · subst h
        have : (k' == a) = false := by simpa using Ne.symm hak
        simp [mapAssign, hak, List.lookup, this, ih]
      · by_cases h' : k' = a
        · subst h'
          simp [mapAssign, hak, List.lookup, h]
        · have : (k' == a) = false := by simpa using h'
          simp [mapAssign, hak, List.lookup, this, ih, h]

theorem mapLookup_foldl (pairs : List (GoString × GoString)) :
    ∀ (m : GoMap GoString) (k : GoString),
      mapLookup (pairs.foldl (fun labels kv => mapAssign labels kv.1 kv.2) m) k =
        (List.lookup k pairs.reverse).or (mapLookup m k) := by
  induction pairs with
  | nil => intro m k; simp
  | cons p ps ih =>
    intro m k
    simp only [List.foldl_cons, ih, mapLookup_mapAssign, List.reverse_cons, List.lookup_append,
      Option.or_assoc]
    congr 1
    by_cases h : k = p.1
    · simp [List.lookup, h]
    · have hb : (k == p.1) = false := by simpa using h
      simp [List.lookup, h, hb]

theorem not_mem_of_isLabelChar (s : GoString) (h : s.all isLabelChar = true) (a : Char)
    (ha : isLabelChar a = false) : a ∉ s := by
  intro hm
  rw [List.all_eq_true] at h
  rw [h a hm] at ha
  exact Bool.noConfusion ha

theorem not_mem_labelText (kv : GoString × GoString)
    (h : (kv.1 ++ kv.2).all isLabelChar = true) (a : Char) (ha : isLabelChar a = false)
    (h1 : a ≠ '=') (h2 : a ≠ '"') : a ∉ labelText kv := by
  have hm := not_mem_of_isLabelChar _ h a ha
  simp only [List.mem_append, not_or] at hm
  unfold labelText
  simp only [List.mem_append, List.mem_cons, List.mem_singleton, List.not_mem_nil, or_false,
    not_or]
  exact ⟨hm.1, h1, h2, hm.2, h2⟩

theorem not_mem_labelBlock (a : Char) (ha : isLabelChar a = false) (h0 : a ≠ ',')
    (h1 : a ≠ '=') (h2 : a ≠ '"') :
    ∀ pairs : List (GoString × GoString),
      (∀ kv ∈ pairs, (kv.1 ++ kv.2).all isLabelChar = true) → a ∉ labelBlock pairs := by
  intro pairs
  induction pairs with
  | nil => intro _; simp [labelBlock]
  | cons kv rest ih =>
    intro h
    have hkv := not_mem_labelText kv (h kv (List.mem_cons_self _ _)) a ha h1 h2
    cases rest with
    | nil => simpa [labelBlock] using hkv
    | cons next rest' =>
      have := ih (fun x hx => h x (List.mem_cons_of_mem _ hx))
      simp only [labelBlock, List.mem_append, List.mem_cons, not_or]
      exact ⟨hkv, h0, this⟩

theorem Split_labelText (kv : GoString × GoString)
    (h : (kv.1 ++ kv.2).all isLabelChar = true) :
    Split (labelText kv) '=' = [kv.1, '"' :: (kv.2 ++ ['"'])] := by
  have hm := not_mem_of_isLabelChar _ h '=' (by decide)
  simp only [List.mem_append, not_or] at hm
  unfold labelText
  rw [Split_append_sep _ _ _ hm.1, Split_of_not_mem]
  simp only [List.mem_cons, List.mem_append, List.mem_singleton, List.not_mem_nil, or_false,
    not_or]
  exact ⟨by decide, hm.2, by decide⟩

theorem Split_labelBlock :
    ∀ pairs : List (GoString × GoString), pairs ≠ [] →
      (∀ kv ∈ pairs, (kv.1 ++ kv.2).all isLabelChar = true) →
      Split (labelBlock pairs) ',' = pairs.map labelText := by
  intro pairs
  induction pairs with
  | nil => intro h; exact absurd rfl h
  | cons kv rest ih =>
    intro _ h
    have hkv := not_mem_labelText kv (h kv (List.mem_cons_self _ _)) ',' (by decide)
      (by decide) (by decide)
    cases rest with
    | nil => simp [labelBlock, Split_of_not_mem _ _ hkv]
    | cons next rest' =>
      have := ih (List.cons_ne_nil _ _) (fun x hx => h x (List.mem_cons_of_mem _ hx))
      simp only [labelBlock, List.map_cons] at this ⊢
      rw [Split_append_sep _ _ _ hkv, this]

theorem labelPairs_labelText (pairs : List (GoString × GoString)) :
    ∀ m : GoMap GoString, (∀ kv ∈ pairs, (kv.1 ++ kv.2).all isLabelChar = true) →
      labelPairs (pairs.map labelText) m =
        .ok (pairs.foldl (fun labels kv => mapAssign labels kv.1 kv.2) m) := by
  induction pairs with
  | nil => intro m _; rfl
  | cons kv rest ih =>
    intro m h
    have hkv := h kv (List.mem_cons_self _ _)
    have hq : '"' ∉ kv.2 := by
      have := not_mem_of_isLabelChar _ hkv '"' (by decide)
      simp only [List.mem_append, not_or] at this
      exact this.2
    simp only [List.map_cons, labelPairs, Split_labelText kv hkv, List.getElem?_cons_zero,
      List.getElem?_cons_succ, ReplaceAll_quotes _ hq, List.foldl_cons]
    exact ih _ (fun x hx => h x (List.mem_cons_of_mem _ hx))

theorem matchValue_space (x : GoString) (hx : x.all isValueChar = true) :
    matchValue (' ' :: x) = some x := by
  simp [matchValue, hx]

theorem FindStringSubmatch_labelledLine (N block x : GoString) (hN : isMetricName N = true)
    (hb : '\x7d' ∉ block) (hx : x.all isValueChar = true) :
    FindStringSubmatch (N ++ '\x7b' :: (block ++ '\x7d' :: ' ' :: x)) =
      [N ++ '\x7b' :: (block ++ '\x7d' :: ' ' :: x), N, '\x7b' :: (block ++ ['\x7d']),
        block, x] := by
  cases N with
  | nil => simp [isMetricName] at hN
  | cons c cs =>
    simp only [isMetricName, Bool.and_eq_true, List.all_eq_true] at hN
    have h1 : (cs ++ '\x7b' :: (block ++ '\x7d' :: ' ' :: x)).takeWhile isNameChar = cs := by
      rw [List.takeWhile_append_of_pos hN.2, List.takeWhile_cons_of_neg (by decide)]
      simp
    have h2 : (cs ++ '\x7b' :: (block ++ '\x7d' :: ' ' :: x)).dropWhile isNameChar =
        '\x7b' :: (block ++ '\x7d' :: ' ' :: x) := by
      rw [List.dropWhile_append_of_pos hN.2, List.dropWhile_cons_of_neg (by decide)]
    have hb' : ∀ a ∈ block, (fun y : Char => y != '\x7d') a = true := by
      intro a ha
      simpa using fun e : a = '\x7d' => hb (e ▸ ha)
    have h3 : (block ++ '\x7d' :: ' ' :: x).takeWhile (fun y => y != '\x7d') = block := by
      rw [List.takeWhile_append_of_pos hb', List.takeWhile_cons_of_neg (by simp)]
      simp
    have h4 : (block ++ '\x7d' :: ' ' :: x).dropWhile (fun y => y != '\x7d') =
        '\x7d' :: ' ' :: x := by
      rw [List.dropWhile_append_of_pos hb', List.dropWhile_cons_of_neg (by simp)]
    simp only [List.cons_append, FindStringSubmatch, hN.1, if_true, h1, h2, h3, h4,
      matchValue_space x hx]

theorem FindStringSubmatch_plainLine (N x : GoString) (hN : isMetricName N = true)
    (hx : x.all isValueChar = true) :
    FindStringSubmatch (N ++ ' ' :: x) = [N ++ ' ' :: x, N, [], [], x] := by
  cases N with
  | nil => simp [isMetricName] at hN
  | cons c cs =>
    simp only [isMetricName, Bool.and_eq_true, List.all_eq_true] at hN
    have h1 : (cs ++ ' ' :: x).takeWhile isNameChar = cs := by
      rw [List.takeWhile_append_of_pos hN.2, List.takeWhile_cons_of_neg (by decide)]
      simp
    have h2 : (cs ++ ' ' :: x).dropWhile isNameChar = ' ' :: x := by
      rw [List.dropWhile_append_of_pos hN.2, List.dropWhile_cons_of_neg (by decide)]
    have h5 : ¬ (' ' = '\x7b') := by decide
    simp only [List.cons_append, FindStringSubmatch, hN.1, if_true, h1, h2, h5, if_false,
      matchValue_space x hx]

theorem labelBlock_ne_nil (pairs : List (GoString × GoString)) (h : pairs ≠ []) :
    labelBlock pairs ≠ [] := by
  cases pairs with
  | nil => exact absurd rfl h
  | cons kv rest =>
    cases rest with
    | nil => simp [labelBlock, labelText]
    | cons next rest' => simp [labelBlock, labelText]

/-- C18: let `N` be a metric name and `x` a value token that `strconv.ParseFloat` reads. For
label pairs `k1, v1`, ..., `kn, vn` with `n >= 1` whose keys and values contain no comma, no
equals sign, no double quote and no closing brace, the sample line
`N{k1="v1",...,kn="vn"} x` is decoded into the name `N`, the value and the label mapping in
which the pairs are assigned in turn: it maps each key to the value of the last pair with
that key, the double quotes removed. The sample line `N x` without brace block and the line
`N{} x` with the empty block are decoded with the empty label mapping. -/
theorem decodeSample_labels (N x : GoString) (value : Float64)
    (pairs : List (GoString × GoString))
    (hN : isMetricName N = true) (hx : x.all isValueChar = true)
    (hvalue : ParseFloat x = .ok value) (hpairs : pairs ≠ [])
    (hclean : ∀ kv ∈ pairs, (kv.1 ++ kv.2).all isLabelChar = true) :
    decodeSample (labelledLine N pairs x) = .ok (N, value, assignAll pairs) ∧
    (∀ k, mapLookup (assignAll pairs) k = List.lookup k pairs.reverse) ∧
    decodeSample (plainLine N x) = .ok (N, value, []) ∧
    decodeSample (labelledLine N [] x) = .ok (N, value, []) := by
  have hNne : N ≠ [] := by
    intro e; rw [e] at hN; simp [isMetricName] at hN
  have hbrace : '\x7d' ∉ labelBlock pairs :=
    not_mem_labelBlock '\x7d' (by decide) (by decide) (by decide) (by decide) pairs hclean
  refine ⟨?_, ?_, ?_, ?_⟩
  · unfold labelledLine
    rw [decodeSample_matched _ N _ (labelBlock pairs) x
      (FindStringSubmatch_labelledLine N _ x hN hbrace hx) hNne]
    simp only [hvalue, labelBlock_ne_nil pairs hpairs, if_false,
      Split_labelBlock pairs hpairs hclean, labelPairs_labelText pairs [] hclean]
    rfl
  · intro k
    unfold assignAll
    rw [mapLookup_foldl]
    simp [mapLookup]
  · unfold plainLine
    rw [decodeSample_matched _ N [] [] x (FindStringSubmatch_plainLine N x hN hx) hNne]
    simp [hvalue]
  · unfold labelledLine
    have h := FindStringSubmatch_labelledLine N [] x hN (by simp) hx
    simp only [List.nil_append] at h
    simp only [labelBlock, List.nil_append]
    rw [decodeSample_matched _ N _ [] x h hNne]
    simp [hvalue]

/-- C18 on the line `server_up{short="service_a",boundary="backend"} 1` of the test document
of the repository, on `server_up 1` and on `server_up{} 1`. -/
theorem decodeSample_labels_witness :
    decodeSample
        "server_up\x7bshort=\"service_a\",boundary=\"backend\"\x7d 1".toList =
      .ok ("server_up".toList, { neg := false, mant := 1, exp := 0 },
        [("short".toList, "service_a".toList), ("boundary".toList, "backend".toList)]) ∧
    (∀ k, mapLookup
        (assignAll [("short".toList, "service_a".toList), ("boundary".toList, "backend".toList)])
        k =
      List.lookup k
        [("short".toList, "service_a".toList), ("boundary".toList, "backend".toList)].reverse) ∧
    decodeSample "server_up 1".toList =
      .ok ("server_up".toList, { neg := false, mant := 1, exp := 0 }, []) ∧
    decodeSample "server_up\x7b\x7d 1".toList =
      .ok ("server_up".toList, { neg := false, mant := 1, exp := 0 }, []) :=
  decodeSample_labels "server_up".toList "1".toList { neg := false, mant := 1, exp := 0 }
    [("short".toList, "service_a".toList), ("boundary".toList, "backend".toList)]
    (by decide) (by decide) (by decide) (by decide) (by decide)

end Mget
